import Mathlib

/-!
# Verification of the SocWatch table-extraction engine

A shallow embedding of `src/workload_parser/parsers/socwatch_parser.py`:
the table-shape extraction functions (`cpu_model_table`,
`one_line_colon_separator`, `temp_avr_table`, `bw_total_avr`,
`core_residency_table`, `os_wakeups_table`, `core_freq_avr_table`,
`default_residency_table`, `bucketized_table`,
`socwatch_table_type_checker`) and the `SocwatchParser` pipeline
(`_parse_socwatch_content`, `_extract_table_data`,
`_extract_target_metrics`, `_is_specialized_table_format`,
`_get_table_header_text`, `_get_table_header_value`).

Python strings are modelled by `String`, handled through explicit
`List Char` primitives mirroring Python's `str.split`, `str.strip`,
`in`, `startswith`, etc.  Python floats are modelled by `Rat`
(exact decimal arithmetic; the reports in scope hold short decimal
literals for which this abstraction is faithful), distinguishing the
Python types `int`, `float` and `str` through the `Value` sum type.
Python `dict` (insertion ordered, writing an existing key updates the
value in place) is modelled by `OMap` with the single write
operation `odWrite`.
-/

set_option autoImplicit false

namespace Socwatch

/-! ## Character-list string primitives (Python semantics) -/

/-- Python whitespace characters stripped by `str.strip()`. -/
def isPyWs (c : Char) : Bool :=
  c = ' ' || c = '\t' || c = '\n' || c = '\r' || c = '\x0b' || c = '\x0c'

/-- `str.strip()` on the underlying character list. -/
def trimChars (cs : List Char) : List Char :=
  ((cs.dropWhile isPyWs).reverse.dropWhile isPyWs).reverse

/-- `str.strip()`. -/
def pyStrip (s : String) : String := String.mk (trimChars s.data)

/-- `str.strip('"')` on the character list: drop all leading and trailing `"`. -/
def trimQuoteChars (cs : List Char) : List Char :=
  ((cs.dropWhile (· = '"')).reverse.dropWhile (· = '"')).reverse

/-- `str.strip('"')`. -/
def pyStripQuotes (s : String) : String := String.mk (trimQuoteChars s.data)

/-- Python `str.split(c)` with a one-character separator: keeps empty parts,
`"".split(c) = [""]`. -/
def splitChar (c : Char) : List Char → List (List Char)
  | [] => [[]]
  | x :: xs =>
    match splitChar c xs with
    | [] => if x = c then [[], []] else [[x]]
    | y :: ys => if x = c then [] :: y :: ys else (x :: y) :: ys

/-- Python `str.split(sep)` for a one-character `sep`, producing strings. -/
def pySplit (s : String) (c : Char) : List String :=
  (splitChar c s.data).map String.mk

/-- Substring search on character lists; `containsSub h [] = true`
like Python's `"" in s`. -/
def containsSub (hay pat : List Char) : Bool :=
  pat.isPrefixOf hay ||
    match hay with
    | [] => false
    | _ :: t => containsSub t pat

/-- Python `pat in s` (substring containment). -/
def strContains (s pat : String) : Bool := containsSub s.data pat.data

/-- Python `c in s` for a single character. -/
def charIn (s : String) (c : Char) : Bool := s.data.contains c

/-- Python `s.startswith(pat)`. -/
def pyStartsWith (s pat : String) : Bool := pat.data.isPrefixOf s.data

/-- Python `s.endswith(pat)`. -/
def pyEndsWith (s pat : String) : Bool := pat.data.isSuffixOf s.data

/-- Python `s.lower()` (ASCII view, as used for the catalog keys). -/
def pyLower (s : String) : String := String.mk (s.data.map Char.toLower)

/-- Python `sep.join(parts)` for `sep = " "`. -/
def joinSpace : List String → String
  | [] => ""
  | [x] => x
  | x :: xs => x ++ " " ++ joinSpace xs

/-! ## Numeric parsing (models of Python `int(·)` and `float(·)`) -/

/-- Value of a non-empty digit string. -/
def digitsToNat (cs : List Char) : Nat :=
  cs.foldl (fun a c => a * 10 + (c.toNat - 48)) 0

/-- All characters are decimal digits and the list is non-empty. -/
def allDigits (cs : List Char) : Bool :=
  !cs.isEmpty && cs.all Char.isDigit

/-- Model of Python `int(s)`: optional sign, then digits only.
Returns `none` where Python raises `ValueError`. -/
def parseIntOpt (s : String) : Option Int :=
  let cs := trimChars s.data
  match cs with
  | '-' :: rest => if allDigits rest then some (-(digitsToNat rest : Int)) else none
  | '+' :: rest => if allDigits rest then some (digitsToNat rest : Int) else none
  | rest => if allDigits rest then some (digitsToNat rest : Int) else none

/-- The exact decimal `ip.fp` with `e` fractional digits, built through the
normalizing constructor `mkRat` (kept away from the `@[irreducible]` field
operations so that concrete runs reduce inside the kernel). -/
def decMake (ip fp e : Nat) : Rat := mkRat ((ip * 10 ^ e + fp : Nat) : Int) (10 ^ e)

/-- Model of Python `float(s)` on plain decimal notation (optional sign,
digits with at most one point, at least one digit).  Exponent, `inf` and
`nan` forms do not occur in the reports in scope and are not modelled.
Returns `none` where Python raises `ValueError`. -/
def parseFloatOpt (s : String) : Option Rat :=
  let cs := trimChars s.data
  let core : List Char → Option Rat := fun cs =>
    match splitChar '.' cs with
    | [a] => if allDigits a then some (mkRat (digitsToNat a : Int) 1) else none
    | [a, b] =>
        if (a.isEmpty || a.all Char.isDigit) && (b.isEmpty || b.all Char.isDigit)
            && !(a.isEmpty && b.isEmpty) then
          some (decMake (digitsToNat a) (digitsToNat b) b.length)
        else none
    | _ => none
  match cs with
  | '-' :: rest => (core rest).map (fun q => -q)
  | '+' :: rest => core rest
  | rest => core rest

/-- Exact rational addition through `mkRat`. -/
def decAdd (a b : Rat) : Rat :=
  mkRat (a.num * (b.den : Int) + b.num * (a.den : Int)) (a.den * b.den)

/-- One half. -/
def ratHalf : Rat := mkRat 1 2

/-- Round-half-to-even (Python `round` tie rule) applied to `q`. -/
def roundHalfEven (q : Rat) : Int :=
  let f : Int := q.floor
  let r : Rat := mkRat (q.num - f * (q.den : Int)) q.den
  if r < ratHalf then f
  else if ratHalf < r then f + 1
  else if f % 2 = 0 then f else f + 1

/-- Model of Python `round(x, 2)` under the exact-decimal abstraction. -/
def round2 (q : Rat) : Rat := mkRat (roundHalfEven (mkRat (q.num * 100) q.den)) 100

/-- Python `int(x)` on a float: truncation toward zero. -/
def ratTrunc (q : Rat) : Int := if 0 ≤ q then q.floor else -((-q).floor)

/-! ## Values and ordered mappings -/

/-- A Python value as stored in the extracted tables: a string, an `int`
or a `float` (the latter modelled by `Rat`). -/
inductive Value where
  | str (s : String)
  | intV (n : Int)
  | num (q : Rat)
deriving DecidableEq, Repr

/-- Insertion-ordered string-keyed mapping (model of Python `dict`). -/
abbrev OMap := List (String × Value)

/-- `d[k] = v` on a Python dict: update in place when the key exists,
else append. -/
def odWrite (m : OMap) (k : String) (v : Value) : OMap :=
  if m.any (fun p => p.1 = k) then
    m.map (fun p => if p.1 = k then (k, v) else p)
  else m ++ [(k, v)]

/-- A sequence of dict writes. -/
def odFold (m : OMap) (ws : List (String × Value)) : OMap :=
  ws.foldl (fun a p => odWrite a p.1 p.2) m

/-- The keys of a mapping, in order. -/
def omapKeys (m : OMap) : List String := m.map Prod.fst

/-- First value stored at `k`, if any. -/
def omapFind (m : OMap) (k : String) : Option Value :=
  (m.find? (fun p => p.1 = k)).map Prod.snd

/-! ## Table-shape extraction functions (socwatch_parser.py lines 14-224) -/

/-- The Python `for idx, line in enumerate(table_data)` loop shape. -/
def enumFold {D : Type} (step : Nat → List String → D → D) :
    Nat → List (List String) → D → D
  | _, [], d => d
  | i, r :: rs, d => enumFold step (i + 1) rs (step i r d)

/-- One row of `cpu_model_table` (lines 17-22). -/
def cpuModelStep (_ : Nat) (line : List String) (m : OMap) : OMap :=
  match line with
  | [] => m
  | f :: _ =>
    if charIn f '=' then
      let items := pySplit f '='
      if items.length > 1 then
        let i0 := items.getD 0 ""
        let key := if charIn i0 '/' then pyStrip ((pySplit i0 '/').getD 1 "") else pyStrip i0
        odWrite m key (Value.str (pyStrip (items.getLastD "")))
      else m
    else m

/-- `cpu_model_table` (lines 14-23). -/
def cpu_model_table (td : List (List String)) : OMap := enumFold cpuModelStep 0 td []

/-- The value coercion of `one_line_colon_separator` (lines 36-42): float when
the text has a point, int otherwise, the raw string on failure. -/
def colonValue (value : String) : Value :=
  if charIn value '.' then
    match parseFloatOpt value with
    | some q => Value.num q
    | none => Value.str value
  else
    match parseIntOpt value with
    | some n => Value.intV n
    | none => Value.str value

/-- One row of `one_line_colon_separator` (lines 29-42). -/
def oneLineColonStep (_ : Nat) (line : List String) (m : OMap) : OMap :=
  match line with
  | [] => m
  | f :: _ =>
    if charIn f ':' then
      let items := pySplit f ':'
      if items.length ≥ 2 then
        odWrite m (pyStrip (items.getD 0 "")) (colonValue (pyStrip (items.getLastD "")))
      else m
    else m

/-- `one_line_colon_separator` (lines 26-43). -/
def one_line_colon_separator (td : List (List String)) : OMap :=
  enumFold oneLineColonStep 0 td []

/-- One row of `temp_avr_table` (lines 49-58). -/
def tempAvrStep (label : String) (idx : Nat) (line : List String) (m : OMap) : OMap :=
  if line.length ≥ 5 then
    if idx = 0 then odWrite m label (Value.str (line.getD 4 ""))
    else
      let l0 := line.getD 0 ""
      let key := if charIn l0 '/' then (pySplit l0 '/').getLastD "" else l0
      match parseFloatOpt (line.getD 4 "") with
      | some q => odWrite m key (Value.num (round2 q))
      | none => odWrite m key (Value.str (line.getD 4 ""))
  else m

/-- `temp_avr_table` (lines 46-59). -/
def temp_avr_table (td : List (List String)) (label : String) : OMap :=
  enumFold (tempAvrStep label) 0 td []

/-- `bw_total_avr` (lines 62-72): only the last row matters. -/
def bw_total_avr (td : List (List String)) (label : String) : OMap :=
  match td.getLast? with
  | some lastRow =>
    if lastRow.length ≥ 3 then
      let v := match parseFloatOpt (lastRow.getD 2 "") with
        | some q => Value.num (round2 q)
        | none => Value.str (lastRow.getD 2 "")
      [(label ++ "_AvrRt(MB/s)", v)]
    else [(label ++ "_AvrRt(MB/s)", Value.intV 0)]
  | none => [(label ++ "_AvrRt(MB/s)", Value.intV 0)]

/-- Key cleanup shared by residency/temperature shapes: text after the last
`/` when one is present. -/
def residencyKey (h : String) : String :=
  if charIn h '/' then (pySplit h '/').getLastD "" else h

/-- `core_residency_table` (lines 75-97): header row and first data row only;
the column walk stops at the first header lacking `(%)` or at the end of the
shorter of the two rows. -/
def core_residency_table (td : List (List String)) : OMap :=
  match td with
  | headerRow :: dataRow :: _ =>
    let m0 : OMap :=
      match headerRow, dataRow with
      | h0 :: _, d0 :: _ => [(h0, Value.str d0)]
      | _, _ => []
    let cols := ((headerRow.drop 1).zip (dataRow.drop 1)).takeWhile
      (fun p => strContains (residencyKey p.1) "(%)")
    cols.foldl (fun m p =>
      match parseFloatOpt p.2 with
      | some q => odWrite m (residencyKey p.1) (Value.num (round2 q))
      | none => odWrite m (residencyKey p.1) (Value.str p.2)) m0
  | _ => []

/-- First space-separated token, `s.split(' ')[0]`. -/
def firstSpaceTok (s : String) : String := (pySplit s ' ').getD 0 ""

/-- One row of `os_wakeups_table` (lines 103-114). -/
def osWakeupsStep (idx : Nat) (line : List String) (m : OMap) : OMap :=
  if line.length ≥ 3 then
    if idx = 0 then
      odWrite m "OS_wakeups"
        (Value.str (firstSpaceTok (line.getD 1 "") ++ " (" ++
          joinSpace ((pySplit (line.getD 2 "") ' ').dropLast) ++ ")"))
    else if idx = 1 then
      odWrite m "Rank"
        (Value.str (firstSpaceTok (line.getD 1 "") ++ " (" ++ line.getD 2 "" ++ ")"))
    else
      let key := if line.getD 0 "" ≠ "" then line.getD 0 "" else "Entry_" ++ toString idx
      odWrite m key
        (Value.str (firstSpaceTok (line.getD 1 "") ++ " (" ++ line.getD 2 "" ++ ")"))
  else m

/-- `os_wakeups_table` (lines 100-115). -/
def os_wakeups_table (td : List (List String)) : OMap := enumFold osWakeupsStep 0 td []

/-- The key cell cleanup of `core_freq_avr_table` (line 129): third
`/`-segment when present. -/
def coreFreqKey (kIdx : Nat) (line : List String) : String :=
  if charIn (line.getD kIdx "") '/' && (pySplit (line.getD kIdx "") '/').length > 2
  then (pySplit (line.getD kIdx "") '/').getD 2 "" else line.getD kIdx ""

/-- One data row of `core_freq_avr_table` (lines 126-134). -/
def coreFreqStep (kIdx vIdx : Nat) (_ : Nat) (line : List String) (m : OMap) : OMap :=
  if line.length > max kIdx vIdx then
    match parseFloatOpt (line.getD vIdx "") with
    | some q => odWrite m (coreFreqKey kIdx line) (Value.intV (ratTrunc q))
    | none => odWrite m (coreFreqKey kIdx line) (Value.str (line.getD vIdx ""))
  else m

/-- `core_freq_avr_table` (lines 118-135): the whole body is guarded by the
header row being long enough. -/
def core_freq_avr_table (td : List (List String)) (kIdx vIdx : Nat) : OMap :=
  match td with
  | [] => []
  | r0 :: rest =>
    if r0.length > max kIdx vIdx then
      enumFold (coreFreqStep kIdx vIdx) 1 rest
        [(r0.getD kIdx "", Value.str (r0.getD vIdx ""))]
    else []

/-- The P-state key truncation (lines 145-146 and 164-165): cut at the first
`.` for non-first rows of `_Pstate` tables. -/
def pstateKey (idx : Nat) (key : String) : String :=
  if strContains key "_Pstate" && decide (idx > 0) && charIn key '.' then
    (pySplit key '.').getD 0 ""
  else key

/-- One row of `default_residency_table` (lines 141-152). -/
def defaultResidencyStep (kIdx vIdx : Nat) (idx : Nat) (line : List String) (m : OMap) : OMap :=
  if line.length > max kIdx vIdx then
    let key := pstateKey idx (line.getD kIdx "")
    let value := line.getD vIdx ""
    match parseFloatOpt value with
    | some q => odWrite m key (Value.num (round2 q))
    | none => odWrite m key (Value.str value)
  else m

/-- `default_residency_table` (lines 138-153). -/
def default_residency_table (td : List (List String)) (kIdx vIdx : Nat) : OMap :=
  enumFold (defaultResidencyStep kIdx vIdx) 0 td []

/-- `cur + float(value)` under the try/except of lines 173-186; a `str`
accumulator would raise in Python and leave the bucket unchanged. -/
def addFloat (v : Value) (q : Rat) : Value :=
  match v with
  | Value.intV n => Value.num (decAdd (mkRat n 1) q)
  | Value.num r => Value.num (decAdd r q)
  | Value.str s => Value.str s

/-- The per-bucket body of the loop at lines 172-186: range buckets
accumulate, exact-match buckets assign, any `int`/`float` parse failure
leaves the bucket unchanged. -/
def bucketUpdateOne (key value : String) (b : String) (cur : Value) : Value :=
  if charIn b '-' then
    match pySplit b '-' with
    | [lo, hi] =>
      match parseIntOpt lo, parseIntOpt hi, parseIntOpt key with
      | some mn, some mx, some k =>
        if mn ≤ k ∧ k ≤ mx then
          match parseFloatOpt value with
          | some q => addFloat cur q
          | none => cur
        else cur
      | _, _, _ => cur
    | _ => cur
  else if b = key then
    match parseFloatOpt value with
    | some q => Value.num q
    | none => cur
  else cur

/-- The full `for bucket in bucketized_data` loop for one data row: every
bucket entry is visited (no early exit in the source). -/
def bucketUpdate (key value : String) (bdata : OMap) : OMap :=
  bdata.map (fun p => (p.1, bucketUpdateOne key value p.1 p.2))

/-- One row of `bucketized_table` (lines 161-186), updating the raw `data`
dict and the bucket dict. -/
def bucketizedStep (kIdx vIdx : Nat) (idx : Nat) (line : List String)
    (st : OMap × OMap) : OMap × OMap :=
  if line.length > max kIdx vIdx then
    let key := pstateKey idx (line.getD kIdx "")
    let value := line.getD vIdx ""
    let data := odWrite st.1 key (Value.str value)
    let bdata := if idx > 0 then bucketUpdate key value st.2 else st.2
    (data, bdata)
  else st

/-- `bucketized_table` (lines 156-196): bucket dict seeded with `int 0`,
then for non-empty bucket lists the result is the first raw pair followed
by the bucket dict. -/
def bucketized_table (td : List (List String)) (kIdx vIdx : Nat)
    (buckets : List String) : OMap :=
  let seed : OMap := buckets.foldl (fun m b => odWrite m b (Value.intV 0)) []
  let st := enumFold (bucketizedStep kIdx vIdx) 0 td ([], seed)
  if buckets.isEmpty then st.1
  else
    let first := st.1.headD ("Header", Value.str "Value")
    odFold [(first.1, first.2)] st.2

/-- A catalog entry (`TargetDescriptor`): key, lookup text and optional
bucket specs. -/
structure Target where
  key : String
  lookup : String
  buckets : Option (List String) := none
deriving DecidableEq, Repr

/-- `socwatch_table_type_checker` (lines 199-224): static label dispatch. -/
def socwatch_table_type_checker (td : List (List String)) (label : String)
    (bucketsOpt : Option (List String)) : OMap :=
  if label = "CPU_model" then cpu_model_table td
  else if label = "Core_Cstate" || label = "ACPI_Cstate" then core_residency_table td
  else if label = "OS_wakeups" then os_wakeups_table td
  else if label = "CPU_Pavr" then core_freq_avr_table td 0 1
  else if label = "CPU_Pstate" then default_residency_table td 0 1
  else if label = "DC_count" then one_line_colon_separator td
  else if ["DDR_BW", "IO_BW", "VC1_BW", "NPU_BW", "Media_BW", "IPU_BW", "CCE_BW",
      "GT_BW", "D2D_BW"].contains label then bw_total_avr td label
  else if label = "CPU_temp" || label = "SoC_temp" then temp_avr_table td label
  else if label = "PMC+SLP_S0" then default_residency_table td 0 2
  else
    match bucketsOpt with
    | some bs => bucketized_table td 0 1 bs
    | none => default_residency_table td 0 1

/-! ## Section location and row tokenization (lines 316-352, 460-491) -/

/-- One tokenized row: split on `,`, drop parts blank after whitespace
trimming, strip quotes from the rest (line 483). -/
def tokenizeFields (line : String) : List String :=
  (pySplit line ',').filterMap (fun part =>
    if pyStrip part = "" then none else some (pyStripQuotes (pyStrip part)))

/-- The separator test `line.replace('-','').replace(' ','') == ''`
(line 477). -/
def dashSpaceOnly (s : String) : Bool :=
  ((s.data.filter (fun c => c ≠ '-')).filter (fun c => c ≠ ' ')).isEmpty

/-- The raw-table collection loop of `_extract_table_data` (lines 468-487):
stop at the first blank line, skip lines starting with `---` and dash/space
lines, tokenize the rest, keep non-empty rows. -/
def collectTableLines : List String → List (List String)
  | [] => []
  | l :: rest =>
    let line := pyStrip l
    if line = "" then []
    else if pyStartsWith line "---" || dashSpaceOnly line then collectTableLines rest
    else
      let parts := tokenizeFields line
      if parts.isEmpty then collectTableLines rest else parts :: collectTableLines rest

/-- `_extract_table_data` (lines 460-513): collect rows after the lookup
line, then dispatch on the target key. -/
def extract_table_data (lines : List String) (lookupIdx : Nat) (t : Target) : OMap :=
  let raw := collectTableLines (lines.drop (lookupIdx + 1))
  if raw.isEmpty then [] else socwatch_table_type_checker raw t.key t.buckets

/-- The lookup scan of `_parse_socwatch_content` (lines 330-334): index of
the first line containing the lookup text. -/
def locate (lookup : String) : List String → Option Nat
  | [] => none
  | l :: ls => if strContains l lookup then some 0 else (locate lookup ls).map (· + 1)

/-- `_parse_socwatch_content` (lines 316-352): per catalog target, locate
and extract; unmatched targets and empty tables are dropped. -/
def parse_socwatch_content (lines : List String) (targets : List Target) :
    List (Target × OMap) :=
  targets.filterMap (fun t =>
    match locate t.lookup lines with
    | none => none
    | some i =>
      let d := extract_table_data lines i t
      if d.isEmpty then none else some (t, d))

/-! ## Aggregation (lines 676-834) -/

/-- Generic-header term list of the C/P-state branch (line 744). -/
def genericTableTerms : List String := ["Component", "State", "Frequency", "Residency", "Time"]

/-- Raw-header term list of the fallthrough branch (line 760). -/
def rawHeaderTerms : List String := ["Component", "State", "Frequency", "Residency", "Percentage"]

/-- CPU-model key terms (line 728). -/
def cpuModelTerms : List String := ["processor", "cpu", "family", "model", "stepping"]

/-- `_is_specialized_table_format` (lines 706-763). -/
def is_specialized_table_format (data : OMap) (tableKey : String) : Bool :=
  match omapKeys data with
  | [] => false
  | firstKey :: restKeys =>
    let keys := firstKey :: restKeys
    if pyEndsWith tableKey "_BW" then
      decide (keys.length = 1) && strContains firstKey "AvrRt(MB/s)"
    else if tableKey = "CPU_temp" || tableKey = "SoC_temp" then
      decide (keys.length > 1) && strContains firstKey tableKey
    else if tableKey = "CPU_model" then
      keys.any (fun k => cpuModelTerms.any (fun t => strContains (pyLower k) t))
    else if tableKey = "OS_wakeups" then
      keys.contains "OS_wakeups"
    else if tableKey = "DC_count" then
      decide (keys.length ≥ 1) && !((keys.take 2).any (fun k => charIn k '(' && charIn k ')'))
    else if ["Core_Cstate", "ACPI_Cstate", "PKG_Cstate", "CPU_Pstate",
        "CPU_Pavr"].contains tableKey then
      let hasGeneric := genericTableTerms.any (fun t => strContains firstKey t)
      if hasGeneric && charIn firstKey '(' && charIn firstKey ')' then false else true
    else
      let looksRaw := charIn firstKey '(' && charIn firstKey ')' &&
        rawHeaderTerms.any (fun t => strContains firstKey t)
      !looksRaw

/-- The static header-text table of `_get_table_header_text` (lines 768-799). -/
def header_text_mapping : List (String × String) := [
  ("CPU_model", "CPU_model"), ("PCH_SLP50", "PCH SLP-S0 States"),
  ("S0ix_Substate", "State"), ("PKG_Cstate", "C-State"), ("Core_Cstate", "C-State"),
  ("Core_Concurrency", "# Active Cores"), ("ACPI_Cstate", "C-State"),
  ("OS_wakeups", "OS_wakeups"), ("CPU-iGPU", "CPU/Package_0 Residency (%)"),
  ("CPU_Pavr", "CPU ID"), ("CPU_Pstate", "P-State"), ("RC_Cstate", "C-State"),
  ("DDR_BW", "DDR_BW_AvrRt(MB/s)"), ("IO_BW", "IO_BW_AvrRt(MB/s)"),
  ("VC1_BW", "VC1_BW_AvrRt(MB/s)"), ("NPU_BW", "NPU_BW_AvrRt(MB/s)"),
  ("Media_BW", "Media_BW_AvrRt(MB/s)"), ("IPU_BW", "IPU_BW_AvrRt(MB/s)"),
  ("CCE_BW", "CCE_BW_AvrRt(MB/s)"), ("GT_BW", "GT_BW_AvrRt(MB/s)"),
  ("D2D_BW", "D2D_BW_AvrRt(MB/s)"), ("CPU_temp", "Component Name"),
  ("SoC_temp", "Component Name"), ("NPU_Dstate", "State"),
  ("PMC+SLP_S0", "PCH IP Blocks"), ("Media_Cstate", "C-State"),
  ("NPU_Pstate", "Frequency (MHz)"), ("MEMSS_Pstate", "Frequency (MHz)"),
  ("NoC_Pstate", "Frequency (MHz)"), ("iGFX_Pstate", "Frequency (MHz)")]

/-- The static header-value table of `_get_table_header_value` (lines 806-827). -/
def header_value_mapping : List (String × String) := [
  ("CPU_model", "CPU_model"), ("PCH_SLP50", "PCH Residency (%)"),
  ("S0ix_Substate", "Residency (%)"), ("PKG_Cstate", "Package Residency ()"),
  ("Core_Cstate", "CPU/Package_0/Core_0 Residency ()"),
  ("Core_Concurrency", "Time Active (%)"),
  ("ACPI_Cstate", "CPU/Package_0/Core_0 Residency ()"),
  ("OS_wakeups", "Process Name (PID) (CPU % (Platform))"),
  ("CPU-iGPU", "CPU/Package_0 Residency (%)"), ("CPU_Pavr", "Average (MHz)"),
  ("CPU_Pstate", "Frequency (MHz)"), ("RC_Cstate", "iGPU/Graphics Residency ()"),
  ("CPU_temp", "Time-weighted Avg (oC)"), ("SoC_temp", "Time-weighted Avg (oC)"),
  ("NPU_Dstate", "Residency (%)"), ("PMC+SLP_S0", "Description"),
  ("Media_Cstate", "Residency ()"), ("NPU_Pstate", "NPU (%)"),
  ("MEMSS_Pstate", "MEMSS (%)"), ("NoC_Pstate", "NoC (%)"), ("iGFX_Pstate", "iGFX (%)")]

/-- `_get_table_header_text` (lines 765-801). -/
def get_table_header_text (tableKey : String) : String :=
  ((header_text_mapping.find? (fun p => p.1 = tableKey)).map Prod.snd).getD tableKey

/-- `_get_table_header_value` (lines 803-834). -/
def get_table_header_value (tableKey : String) (data : OMap) : Value :=
  if pyEndsWith tableKey "_BW" then
    ((data.head?).map Prod.snd).getD (Value.str "0.00")
  else
    Value.str (((header_value_mapping.find? (fun p => p.1 = tableKey)).map
      Prod.snd).getD "Value")

/-- The fixed composite-key separator: eight spaces (lines 695 and 701). -/
def SEP : String := "        "

/-- A composite ResultMapping key, `field + SEP + table_key`. -/
def compositeKey (field tableKey : String) : String := field ++ SEP ++ tableKey

/-- The sequence of ResultMapping writes one table produces
(`_extract_target_metrics` loop body, lines 687-702): an optional
synthesized header pair, then all data pairs under composite keys. -/
def tableWrites (t : Target) (data : OMap) : List (String × Value) :=
  (if !is_specialized_table_format data t.key then
    [(compositeKey (get_table_header_text t.key) t.key, get_table_header_value t.key data)]
  else []) ++ data.map (fun p => (compositeKey p.1 t.key, p.2))

/-- `_extract_target_metrics` (lines 676-704). -/
def extract_target_metrics (tables : List (Target × OMap)) : OMap :=
  tables.foldl (fun acc td =>
    if td.2.isEmpty then acc else odFold acc (tableWrites td.1 td.2)) []

/-- The whole pipeline from decoded file content (`SocwatchParser.parse`
minus file I/O and result wrapping). -/
def parseSocwatch (content : String) (targets : List Target) : OMap :=
  extract_target_metrics (parse_socwatch_content (pySplit content '\n') targets)

/-! ## Specification-side definitions used to state the claims -/

/-- A string without space characters (valid catalog keys are of this
form; it makes composite keys reversible). -/
def noSpace (s : String) : Bool := s.data.all (fun c => c ≠ ' ')

/-- The maximal space-free suffix of a string; recovers the table key from
a composite key whose table key is space-free. -/
def lastSpaceFree (s : String) : List Char :=
  (s.data.reverse.takeWhile (fun c => c ≠ ' ')).reverse

/-- One table's contribution to the ResultMapping, evaluated on its own. -/
def tableBlock (t : Target) (data : OMap) : OMap := odFold [] (tableWrites t data)

/-- The full ordered sequence of ResultMapping writes of the aggregation
loop, before dict collapsing. -/
def resultWrites : List (Target × OMap) → List (String × Value)
  | [] => []
  | td :: rest => (if td.2.isEmpty then [] else tableWrites td.1 td.2) ++ resultWrites rest

/-- The catalog-grouped ResultMapping: each extracted table's own block, in
catalog order, concatenated.  Equality with the fold states that all of one
table's keys precede all of the next table's keys. -/
def specBlocks : List (Target × OMap) → OMap
  | [] => []
  | td :: rest => (if td.2.isEmpty then [] else tableBlock td.1 td.2) ++ specBlocks rest

/-- The skip condition of the row tokenizer as the code implements it:
after trimming, the line starts with three dashes or consists solely of
dashes and spaces. -/
def sepSkipLine (s : String) : Bool :=
  pyStartsWith s "---" || s.data.all (fun c => c = '-' || c = ' ')

/-- The colon-scalar key: trimmed text before the first colon. -/
def colonKeyOf (f : String) : String := pyStrip ((pySplit f ':').getD 0 "")

/-- The colon-scalar value: trimmed text after the last colon, coerced. -/
def colonValOf (f : String) : Value := colonValue (pyStrip ((pySplit f ':').getLastD ""))

/-- The colon-scalar extraction as the amended claim words it: every row
whose first field holds a colon contributes the pair made of the trimmed
text before the first colon and the coerced trimmed text after the last
colon. -/
def colon_scalar_spec (rows : List (List String)) : OMap :=
  rows.foldl (fun m r =>
    match r with
    | [] => m
    | f :: _ => if charIn f ':' then odWrite m (colonKeyOf f) (colonValOf f) else m) []

/-- Key and value cell of a bucketized-table row, when it is long enough. -/
def bucketRowKeyVal (kIdx vIdx i : Nat) (r : List String) : Option (String × String) :=
  if r.length > max kIdx vIdx then some (pstateKey i (r.getD kIdx ""), r.getD vIdx "") else none

/-- The parsed float values of the data rows (index over the whole table,
skipping the header row 0) whose integer key lies in `[mn, mx]`. -/
def rangeMatchedValues (rows : List (List String)) (kIdx vIdx : Nat) (mn mx : Int) :
    List Rat :=
  rows.enum.filterMap (fun p =>
    if p.1 = 0 then none else
    match bucketRowKeyVal kIdx vIdx p.1 p.2 with
    | none => none
    | some kv =>
      match parseIntOpt kv.1, parseFloatOpt kv.2 with
      | some ki, some q => if mn ≤ ki ∧ ki ≤ mx then some q else none
      | _, _ => none)

/-- The parsed float values of the data rows whose key cell equals the
bucket label exactly. -/
def exactMatchedValues (rows : List (List String)) (kIdx vIdx : Nat) (b : String) :
    List Rat :=
  rows.enum.filterMap (fun p =>
    if p.1 = 0 then none else
    match bucketRowKeyVal kIdx vIdx p.1 p.2 with
    | none => none
    | some kv =>
      if b = kv.1 then parseFloatOpt kv.2 else none)

/-- The value the bucketing transform leaves in bucket `b`: range buckets
hold the exact (unrounded) sum of all matching rows, exact-match buckets
hold the last matching row's value, untouched buckets keep the integer
seed `0`. -/
def bucketSpecValue (rows : List (List String)) (kIdx vIdx : Nat) (b : String) : Value :=
  if charIn b '-' then
    match pySplit b '-' with
    | [lo, hi] =>
      match parseIntOpt lo, parseIntOpt hi with
      | some mn, some mx =>
        match rangeMatchedValues rows kIdx vIdx mn mx with
        | [] => Value.intV 0
        | q :: qs => Value.num (q :: qs).sum
      | _, _ => Value.intV 0
    | _ => Value.intV 0
  else
    match (exactMatchedValues rows kIdx vIdx b).getLast? with
    | some q => Value.num q
    | none => Value.intV 0

/-! ## Helper lemmas -/

theorem locate_eq_none (lk : String) (lines : List String)
    (h : ∀ l ∈ lines, strContains l lk = false) : locate lk lines = none := by
  induction lines with
  | nil => rfl
  | cons a t ih =>
    have ha : strContains a lk = false := h a (List.mem_cons_self a t)
    simp [locate, ha, ih (fun l hl => h l (List.mem_cons_of_mem a hl))]

theorem parse_cons_of_locate_none (lines : List String) (t : Target) (ts : List Target)
    (h : locate t.lookup lines = none) :
    parse_socwatch_content lines (t :: ts) = parse_socwatch_content lines ts := by
  simp [parse_socwatch_content, List.filterMap_cons, h]

theorem extract_empty_of_blank (lines : List String) (i : Nat) (t : Target)
    (h : ((lines.drop (i + 1)).head?.all (fun l => pyStrip l == "")) = true) :
    extract_table_data lines i t = [] := by
  unfold extract_table_data
  cases hd : lines.drop (i + 1) with
  | nil => simp [collectTableLines]
  | cons l rest =>
    rw [hd] at h
    have hl : pyStrip l = "" := by
      have := h
      simp [Option.all] at this
      exact this
    simp [collectTableLines, hl]

theorem parse_cons_of_extract_empty (lines : List String) (t : Target) (ts : List Target)
    (i : Nat) (h1 : locate t.lookup lines = some i)
    (h2 : extract_table_data lines i t = []) :
    parse_socwatch_content lines (t :: ts) = parse_socwatch_content lines ts := by
  simp [parse_socwatch_content, List.filterMap_cons, h1, h2]

theorem parse_append (lines : List String) (ts1 ts2 : List Target) :
    parse_socwatch_content lines (ts1 ++ ts2) =
      parse_socwatch_content lines ts1 ++ parse_socwatch_content lines ts2 := by
  simp [parse_socwatch_content, List.filterMap_append]

theorem parse_nil_of_all_miss (lines : List String) (ts : List Target)
    (h : ∀ t' ∈ ts, ∀ l ∈ lines, strContains l t'.lookup = false) :
    parse_socwatch_content lines ts = [] := by
  induction ts with
  | nil => rfl
  | cons a t ih =>
    rw [parse_cons_of_locate_none lines a t
      (locate_eq_none _ _ (h a (List.mem_cons_self a t)))]
    exact ih (fun t' ht' => h t' (List.mem_cons_of_mem a ht'))

theorem splitChar_ne_nil (c : Char) (l : List Char) : splitChar c l ≠ [] := by
  cases l with
  | nil => simp [splitChar]
  | cons x t =>
    simp only [splitChar]
    split <;> split <;> simp

theorem length_splitChar (c : Char) (l : List Char) :
    (splitChar c l).length = l.count c + 1 := by
  induction l with
  | nil => simp [splitChar]
  | cons x t ih =>
    cases hsp : splitChar c t with
    | nil => exact absurd hsp (splitChar_ne_nil c t)
    | cons y ys =>
      rw [hsp] at ih
      by_cases hx : x = c
      · simp [splitChar, hsp, hx, List.count_cons] at ih ⊢
        omega
      · simp [splitChar, hsp, hx, List.count_cons] at ih ⊢
        omega

theorem pySplit_length_ge_two (f : String) (c : Char) (h : charIn f c = true) :
    2 ≤ (pySplit f c).length := by
  have hmem : c ∈ f.data := List.mem_of_elem_eq_true (by simpa [charIn, List.contains] using h)
  have hcount : 0 < f.data.count c := List.count_pos_iff.mpr hmem
  have hlen : (pySplit f c).length = f.data.count c + 1 := by
    simp [pySplit, length_splitChar]
  omega

theorem filter_filter_isEmpty_eq_all (l : List Char) :
    ((l.filter (fun c => c ≠ '-')).filter (fun c => c ≠ ' ')).isEmpty =
      l.all (fun c => c = '-' || c = ' ') := by
  rw [Bool.eq_iff_iff]
  simp only [List.isEmpty_iff, List.filter_eq_nil_iff, List.mem_filter, List.all_eq_true,
    decide_eq_true_eq, Bool.or_eq_true, Bool.and_eq_true, not_not]
  constructor
  · intro h c hc
    by_cases h1 : c = '-'
    · exact Or.inl h1
    · exact Or.inr (h c ⟨hc, by simpa using h1⟩)
  · intro h c hc
    rcases h c hc.1 with h1 | h2
    · exact absurd h1 (by simpa using hc.2)
    · exact h2

theorem enumFold_set_inert {D : Type} (step : Nat → List String → D → D)
    (P : List String → Prop) (hstep : ∀ i r d, P r → step i r d = d) :
    ∀ (rows : List (List String)) (j i : Nat) (r r' : List String) (d : D),
      rows.get? j = some r → P r → P r' →
      enumFold step i (rows.set j r') d = enumFold step i rows d := by
  intro rows
  induction rows with
  | nil => intro j i r r' d h; simp at h
  | cons a t ih =>
    intro j i r r' d hget hr hr'
    cases j with
    | zero =>
      have ha : a = r := by simpa using hget
      subst ha
      simp only [List.set, enumFold]
      rw [hstep i r' d hr', hstep i a d hr]
    | succ j' =>
      simp only [List.set, enumFold]
      exact ih j' (i + 1) r r' (step i a d) (by simpa using hget) hr hr'

theorem enumFold_eq_foldl {D : Type} (step : Nat → List String → D → D)
    (hidx : ∀ i r d, step i r d = step 0 r d) :
    ∀ (rows : List (List String)) (i : Nat) (d : D),
      enumFold step i rows d = rows.foldl (fun d r => step 0 r d) d := by
  intro rows
  induction rows with
  | nil => intro i d; rfl
  | cons a t ih =>
    intro i d
    simp only [enumFold, List.foldl]
    rw [hidx i a d]
    exact ih (i + 1) _

theorem defaultResidencyStep_inert (kIdx vIdx i : Nat) (r : List String) (m : OMap)
    (h : r.length ≤ max kIdx vIdx) : defaultResidencyStep kIdx vIdx i r m = m := by
  unfold defaultResidencyStep
  rw [if_neg (by omega)]

theorem bucketizedStep_inert (kIdx vIdx i : Nat) (r : List String) (st : OMap × OMap)
    (h : r.length ≤ max kIdx vIdx) : bucketizedStep kIdx vIdx i r st = st := by
  unfold bucketizedStep
  rw [if_neg (by omega)]

theorem tempAvrStep_inert (label : String) (i : Nat) (r : List String) (m : OMap)
    (h : r.length < 5) : tempAvrStep label i r m = m := by
  unfold tempAvrStep
  rw [if_neg (by omega)]

theorem osWakeupsStep_inert (i : Nat) (r : List String) (m : OMap)
    (h : r.length < 3) : osWakeupsStep i r m = m := by
  unfold osWakeupsStep
  rw [if_neg (by omega)]

theorem coreFreqStep_inert (kIdx vIdx i : Nat) (r : List String) (m : OMap)
    (h : r.length ≤ max kIdx vIdx) : coreFreqStep kIdx vIdx i r m = m := by
  unfold coreFreqStep
  rw [if_neg (by omega)]

theorem bw_total_avr_set_inert (rows : List (List String)) (j : Nat)
    (r r' : List String) (label : String) (hget : rows.get? j = some r)
    (hr : r.length < 3) (hr' : r'.length < 3) :
    bw_total_avr (rows.set j r') label = bw_total_avr rows label := by
  have hlt : j < rows.length := by
    rcases List.get?_eq_some.mp hget with ⟨h, _⟩
    exact h
  by_cases hlast : j = rows.length - 1
  · have h1 : (rows.set j r').getLast? = some r' := by
      rw [List.getLast?_eq_get?, List.length_set, ← hlast]
      exact List.get?_set_eq_of_lt _ hlt
    have h2 : rows.getLast? = some r := by
      rw [List.getLast?_eq_get?, ← hlast]
      exact hget
    unfold bw_total_avr
    rw [h1, h2]
    have e1 : ¬ r'.length ≥ 3 := by omega
    have e2 : ¬ r.length ≥ 3 := by omega
    simp [e1, e2]
  · have h1 : (rows.set j r').getLast? = rows.getLast? := by
      rw [List.getLast?_eq_get?, List.getLast?_eq_get?, List.length_set]
      exact List.get?_set_ne _ _ (by omega)
    unfold bw_total_avr
    rw [h1]

theorem core_freq_avr_table_cons (r0 : List String) (rest : List (List String))
    (kIdx vIdx : Nat) :
    core_freq_avr_table (r0 :: rest) kIdx vIdx =
      if r0.length > max kIdx vIdx then
        enumFold (coreFreqStep kIdx vIdx) 1 rest
          [(r0.getD kIdx "", Value.str (r0.getD vIdx ""))]
      else [] := rfl

theorem core_freq_set_inert (rows : List (List String)) (j kIdx vIdx : Nat)
    (r r' : List String) (hget : rows.get? j = some r)
    (hr : r.length ≤ max kIdx vIdx) (hr' : r'.length ≤ max kIdx vIdx) :
    core_freq_avr_table (rows.set j r') kIdx vIdx = core_freq_avr_table rows kIdx vIdx := by
  cases rows with
  | nil => simp at hget
  | cons a t =>
    cases j with
    | zero =>
      have ha : a = r := by simpa using hget
      subst ha
      simp only [List.set, core_freq_avr_table_cons]
      rw [if_neg (by omega), if_neg (by omega)]
    | succ j' =>
      simp only [List.set, core_freq_avr_table_cons]
      by_cases hh : a.length > max kIdx vIdx
      · rw [if_pos hh, if_pos hh]
        exact enumFold_set_inert _ (fun rr => rr.length ≤ max kIdx vIdx)
          (fun i rr d h => coreFreqStep_inert kIdx vIdx i rr d h)
          t j' 1 r r' _ (by simpa using hget) hr hr'
      · rw [if_neg hh, if_neg hh]

/-! ### Ordered-map lookup lemmas -/

theorem decAdd_eq_add (a b : Rat) : decAdd a b = a + b := (Rat.add_def' a b).symm

theorem getLast?_cons_eq {α : Type} (a : α) (l : List α) :
    (a :: l).getLast? = some (l.getLastD a) := by
  induction l generalizing a with
  | nil => rfl
  | cons b u ih => rw [List.getLast?_cons_cons, ih b, List.getLastD_cons]

theorem find?_map_update (m : OMap) (k : String) (v : Value) :
    ((m.map (fun p => if p.1 = k then (k, v) else p)).find? (fun p => p.1 = k)) =
      if m.any (fun p => p.1 = k) then some (k, v) else none := by
  induction m with
  | nil => rfl
  | cons p t ih =>
    by_cases hp : p.1 = k
    · simp [List.find?_cons, hp]
    · simp only [List.map, List.any_cons]
      rw [if_neg hp, List.find?_cons_of_neg _ (by simpa using hp), ih]
      simp only [decide_eq_false hp, Bool.false_or]

theorem find?_map_update_ne (m : OMap) (k : String) (v : Value) (b : String)
    (hkb : k ≠ b) :
    ((m.map (fun p => if p.1 = k then (k, v) else p)).find? (fun p => p.1 = b)) =
      m.find? (fun p => p.1 = b) := by
  induction m with
  | nil => rfl
  | cons p t ih =>
    by_cases hp : p.1 = k
    · simp only [List.map]
      rw [if_pos hp,
        List.find?_cons_of_neg _ (by simpa using hkb),
        List.find?_cons_of_neg _ (by simp [hp, hkb]), ih]
    · simp only [List.map]
      rw [if_neg hp]
      by_cases hb : p.1 = b
      · rw [List.find?_cons_of_pos _ (by simpa using hb),
          List.find?_cons_of_pos _ (by simpa using hb)]
      · rw [List.find?_cons_of_neg _ (by simpa using hb),
          List.find?_cons_of_neg _ (by simpa using hb), ih]

theorem find?_append_self (m : OMap) (k : String) (v : Value)
    (h : m.any (fun p => p.1 = k) = false) :
    ((m ++ [(k, v)]).find? (fun p => p.1 = k)) = some (k, v) := by
  induction m with
  | nil => simp [List.find?_cons]
  | cons p t ih =>
    simp only [List.any_cons, Bool.or_eq_false_iff] at h
    simp only [List.cons_append]
    rw [List.find?_cons_of_neg _ (by simpa using h.1)]
    exact ih h.2

theorem omapFind_odWrite_self (m : OMap) (k : String) (v : Value) :
    omapFind (odWrite m k v) k = some v := by
  unfold odWrite omapFind
  by_cases h : m.any (fun p => p.1 = k)
  · rw [if_pos h, find?_map_update, if_pos h]
    rfl
  · rw [if_neg h, find?_append_self m k v (by simp only [Bool.not_eq_true] at h; exact h)]
    rfl

theorem omapFind_odWrite_ne (m : OMap) (k : String) (v : Value) (b : String)
    (hkb : k ≠ b) : omapFind (odWrite m k v) b = omapFind m b := by
  unfold odWrite omapFind
  by_cases h : m.any (fun p => p.1 = k)
  · rw [if_pos h, find?_map_update_ne m k v b hkb]
  · rw [if_neg h]
    congr 1
    rw [List.find?_append]
    have he : ([((k, v))] : OMap).find? (fun p => p.1 = b) = none := by
      simp [List.find?_cons, hkb]
    rw [he]
    cases m.find? (fun p => p.1 = b) <;> rfl

theorem omapFind_odFold_not_mem (ws : List (String × Value)) (m : OMap) (b : String)
    (h : b ∉ ws.map Prod.fst) : omapFind (odFold m ws) b = omapFind m b := by
  induction ws generalizing m with
  | nil => rfl
  | cons w t ih =>
    simp only [List.map, List.mem_cons, not_or] at h
    show omapFind (odFold (odWrite m w.1 w.2) t) b = omapFind m b
    rw [ih _ h.2, omapFind_odWrite_ne _ _ _ _ (fun he => h.1 he.symm)]

theorem omapFind_odFold_nodup (ws : List (String × Value)) (m : OMap) (b : String)
    (hnd : (ws.map Prod.fst).Nodup) (hmem : b ∈ ws.map Prod.fst) :
    omapFind (odFold m ws) b = omapFind ws b := by
  induction ws generalizing m with
  | nil => simp at hmem
  | cons w t ih =>
    simp only [List.map, List.nodup_cons] at hnd
    by_cases h : w.1 = b
    · have hbt : b ∉ t.map Prod.fst := by rw [← h]; exact hnd.1
      show omapFind (odFold (odWrite m w.1 w.2) t) b = _
      rw [omapFind_odFold_not_mem _ _ _ hbt, h, omapFind_odWrite_self]
      unfold omapFind
      rw [List.find?_cons_of_pos _ (by simpa using h)]
      rfl
    · show omapFind (odFold (odWrite m w.1 w.2) t) b = _
      have hmem' : b ∈ t.map Prod.fst := by
        rcases List.mem_cons.mp (show b ∈ w.1 :: t.map Prod.fst by simpa using hmem)
          with h1 | h2
        · exact absurd h1.symm h
        · exact h2
      rw [ih _ hnd.2 hmem']
      unfold omapFind
      rw [List.find?_cons_of_neg _ (by simpa using h)]

theorem omapFind_bucketUpdate (key value b : String) (m : OMap) :
    omapFind (bucketUpdate key value m) b =
      (omapFind m b).map (bucketUpdateOne key value b) := by
  induction m with
  | nil => rfl
  | cons p t ih =>
    unfold bucketUpdate omapFind at *
    by_cases h : p.1 = b
    · simp only [List.map]
      rw [List.find?_cons_of_pos _ (by simpa using h),
        List.find?_cons_of_pos _ (by simpa using h)]
      simp [h]
    · simp only [List.map]
      rw [List.find?_cons_of_neg _ (by simpa using h),
        List.find?_cons_of_neg _ (by simpa using h)]
      exact ih

theorem keys_bucketUpdate (key value : String) (m : OMap) :
    omapKeys (bucketUpdate key value m) = omapKeys m := by
  unfold bucketUpdate omapKeys
  rw [List.map_map]
  rfl

theorem omapFind_some_mem (m : OMap) (b : String) (v : Value)
    (h : omapFind m b = some v) : b ∈ omapKeys m := by
  unfold omapFind at h
  cases hf : m.find? (fun p => p.1 = b) with
  | none => rw [hf] at h; cases h
  | some p =>
    have hp := List.find?_some hf
    have hm := List.mem_of_find?_eq_some hf
    simp only [decide_eq_true_eq] at hp
    rw [← hp]
    exact List.mem_map_of_mem Prod.fst hm

theorem keys_odWrite_nodup (m : OMap) (k : String) (v : Value)
    (h : (omapKeys m).Nodup) : (omapKeys (odWrite m k v)).Nodup := by
  unfold odWrite
  by_cases ha : m.any (fun p => p.1 = k)
  · rw [if_pos ha]
    have : omapKeys (m.map (fun p => if p.1 = k then (k, v) else p)) = omapKeys m := by
      unfold omapKeys
      rw [List.map_map]
      apply List.map_eq_map_iff.mpr
      intro p _
      by_cases hp : p.1 = k
      · simp [hp]
      · simp [hp]
    rw [this]
    exact h
  · rw [if_neg ha]
    have hk : k ∉ omapKeys m := by
      intro hmem
      apply ha
      rcases List.mem_map.mp hmem with ⟨p, hp, he⟩
      exact List.any_eq_true.mpr ⟨p, hp, by simp [he]⟩
    unfold omapKeys
    rw [List.map_append]
    simp only [List.map]
    rw [List.nodup_append]
    refine ⟨h, List.nodup_singleton k, ?_⟩
    intro a ha hb
    have : a = k := by simpa using hb
    exact hk (this ▸ ha)

theorem keys_odFold_nodup (ws : List (String × Value)) (m : OMap)
    (h : (omapKeys m).Nodup) : (omapKeys (odFold m ws)).Nodup := by
  induction ws generalizing m with
  | nil => exact h
  | cons w t ih =>
    show (omapKeys (odFold (odWrite m w.1 w.2) t)).Nodup
    exact ih _ (keys_odWrite_nodup m w.1 w.2 h)

/-! ### Bucketing-transform lemmas -/

theorem seed_find (b : String) :
    ∀ (buckets : List String) (acc : OMap),
      (b ∈ buckets ∨ omapFind acc b = some (Value.intV 0)) →
      omapFind (buckets.foldl (fun m bk => odWrite m bk (Value.intV 0)) acc) b =
        some (Value.intV 0) := by
  intro buckets
  induction buckets with
  | nil =>
    intro acc h
    rcases h with h | h
    · simp at h
    · exact h
  | cons bk rest ih =>
    intro acc h
    simp only [List.foldl]
    apply ih
    by_cases hb : bk = b
    · right
      subst hb
      exact omapFind_odWrite_self acc bk _
    · rcases h with h | h
      · rcases List.mem_cons.mp h with h1 | h2
        · exact absurd h1.symm hb
        · left; exact h2
      · right
        rw [omapFind_odWrite_ne _ _ _ _ hb]
        exact h

theorem seed_keys_nodup :
    ∀ (buckets : List String) (acc : OMap), (omapKeys acc).Nodup →
      (omapKeys (buckets.foldl (fun m bk => odWrite m bk (Value.intV 0)) acc)).Nodup := by
  intro buckets
  induction buckets with
  | nil => intro acc h; exact h
  | cons bk rest ih =>
    intro acc h
    exact ih _ (keys_odWrite_nodup acc bk _ h)

theorem bucketized_keys_const (kIdx vIdx : Nat) :
    ∀ (rows : List (List String)) (i : Nat) (st : OMap × OMap),
      omapKeys (enumFold (bucketizedStep kIdx vIdx) i rows st).2 = omapKeys st.2 := by
  intro rows
  induction rows with
  | nil => intro i st; rfl
  | cons r t ih =>
    intro i st
    simp only [enumFold]
    rw [ih]
    unfold bucketizedStep
    by_cases hlen : r.length > max kIdx vIdx
    · rw [if_pos hlen]
      by_cases hi : i > 0
      · simp only [if_pos hi]
        exact keys_bucketUpdate _ _ _
      · simp only [if_neg hi]
    · rw [if_neg hlen]

theorem bucketized_loop_find (kIdx vIdx : Nat) (b : String) :
    ∀ (rows : List (List String)) (i : Nat) (st : OMap × OMap),
      omapFind (enumFold (bucketizedStep kIdx vIdx) i rows st).2 b =
        (rows.enumFrom i).foldl
          (fun ov p =>
            if p.1 = 0 then ov
            else
              match bucketRowKeyVal kIdx vIdx p.1 p.2 with
              | none => ov
              | some kv => ov.map (bucketUpdateOne kv.1 kv.2 b))
          (omapFind st.2 b) := by
  intro rows
  induction rows with
  | nil => intro i st; rfl
  | cons r t ih =>
    intro i st
    simp only [enumFold, List.enumFrom, List.foldl]
    rw [ih (i + 1) (bucketizedStep kIdx vIdx i r st)]
    congr 1
    unfold bucketizedStep bucketRowKeyVal
    by_cases hlen : r.length > max kIdx vIdx
    · rw [if_pos hlen, if_pos hlen]
      by_cases hi : i = 0
      · subst hi
        simp
      · have hi' : i > 0 := Nat.pos_of_ne_zero hi
        simp only [if_pos hi', if_neg hi]
        exact omapFind_bucketUpdate _ _ _ _
    · rw [if_neg hlen, if_neg hlen]
      by_cases hi : i = 0
      · rw [if_pos hi]
      · rw [if_neg hi]

theorem foldl_effect_some (kIdx vIdx : Nat) (b : String) :
    ∀ (l : List (Nat × List String)) (v : Value),
      l.foldl (fun ov p =>
          if p.1 = 0 then ov
          else
            match bucketRowKeyVal kIdx vIdx p.1 p.2 with
            | none => ov
            | some kv => ov.map (bucketUpdateOne kv.1 kv.2 b)) (some v) =
        some (l.foldl (fun v p =>
          if p.1 = 0 then v
          else
            match bucketRowKeyVal kIdx vIdx p.1 p.2 with
            | none => v
            | some kv => bucketUpdateOne kv.1 kv.2 b v) v) := by
  intro l
  induction l with
  | nil => intro v; rfl
  | cons p t ih =>
    intro v
    simp only [List.foldl]
    by_cases hp : p.1 = 0
    · rw [if_pos hp, if_pos hp]
      exact ih v
    · rw [if_neg hp, if_neg hp]
      rcases h : bucketRowKeyVal kIdx vIdx p.1 p.2 with _ | kv
      · simp only [h]
        exact ih v
      · simp only [h, Option.map_some']
        exact ih _

theorem foldl_const {α β : Type} (f : β → α → β) (h : ∀ v p, f v p = v) :
    ∀ (l : List α) (v : β), l.foldl f v = v := by
  intro l
  induction l with
  | nil => intro v; rfl
  | cons p t ih =>
    intro v
    simp only [List.foldl, h v p]
    exact ih v

theorem foldl_addFloat_sum :
    ∀ (qs : List Rat) (r : Rat),
      qs.foldl (fun v q => addFloat v q) (Value.num r) = Value.num (r + qs.sum) := by
  intro qs
  induction qs with
  | nil => intro r; simp
  | cons q t ih =>
    intro r
    simp only [List.foldl]
    have h1 : addFloat (Value.num r) q = Value.num (r + q) := by
      simp [addFloat, decAdd_eq_add]
    rw [h1, ih (r + q), List.sum_cons, add_assoc]

theorem foldl_addFloat_from_zero (qs : List Rat) :
    qs.foldl (fun v q => addFloat v q) (Value.intV 0) =
      (match qs with
       | [] => Value.intV 0
       | q :: qs' => Value.num (q :: qs').sum) := by
  cases qs with
  | nil => rfl
  | cons q t =>
    simp only [List.foldl]
    have h0 : addFloat (Value.intV 0) q = Value.num q := by
      simp [addFloat, decAdd_eq_add, Rat.mkRat_one]
    rw [h0, foldl_addFloat_sum t q, List.sum_cons]

theorem bucketUpdateOne_range (b lo hi : String) (mn mx : Int)
    (hc : charIn b '-' = true) (hsp : pySplit b '-' = [lo, hi])
    (hlo : parseIntOpt lo = some mn) (hhi : parseIntOpt hi = some mx)
    (key value : String) (v : Value) :
    bucketUpdateOne key value b v =
      (match parseIntOpt key, parseFloatOpt value with
       | some ki, some q => if mn ≤ ki ∧ ki ≤ mx then addFloat v q else v
       | _, _ => v) := by
  unfold bucketUpdateOne
  rw [if_pos hc, hsp]
  simp only [hlo, hhi]
  rcases hk : parseIntOpt key with _ | ki
  · simp only [hk]
  · rcases hq : parseFloatOpt value with _ | q
    · simp only [hk, hq]
      split <;> rfl
    · simp only [hk, hq]

theorem bucketUpdateOne_exact (b : String) (hc : charIn b '-' = false)
    (key value : String) (v : Value) :
    bucketUpdateOne key value b v =
      (if b = key then
        match parseFloatOpt value with
        | some q => Value.num q
        | none => v
       else v) := by
  unfold bucketUpdateOne
  rw [if_neg (by simp [hc])]

theorem foldl_range_filterMap (kIdx vIdx : Nat) (mn mx : Int) :
    ∀ (l : List (Nat × List String)) (v : Value),
      l.foldl (fun v p =>
          if p.1 = 0 then v
          else
            match bucketRowKeyVal kIdx vIdx p.1 p.2 with
            | none => v
            | some kv =>
              match parseIntOpt kv.1, parseFloatOpt kv.2 with
              | some ki, some q => if mn ≤ ki ∧ ki ≤ mx then addFloat v q else v
              | _, _ => v) v =
        (l.filterMap (fun p =>
          if p.1 = 0 then none
          else
            match bucketRowKeyVal kIdx vIdx p.1 p.2 with
            | none => none
            | some kv =>
              match parseIntOpt kv.1, parseFloatOpt kv.2 with
              | some ki, some q => if mn ≤ ki ∧ ki ≤ mx then some q else none
              | _, _ => none)).foldl (fun v q => addFloat v q) v := by
  intro l
  induction l with
  | nil => intro v; rfl
  | cons p t ih =>
    intro v
    simp only [List.foldl, List.filterMap_cons]
    by_cases hp : p.1 = 0
    · simp only [if_pos hp]
      exact ih v
    · simp only [if_neg hp]
      rcases hkv : bucketRowKeyVal kIdx vIdx p.1 p.2 with _ | kv
      · simp only [hkv]
        exact ih v
      · simp only [hkv]
        rcases hki : parseIntOpt kv.1 with _ | ki
        · simp only [hki]
          exact ih v
        · rcases hq : parseFloatOpt kv.2 with _ | q
          · simp only [hki, hq]
            exact ih v
          · simp only [hki, hq]
            by_cases hr : mn ≤ ki ∧ ki ≤ mx
            · simp only [if_pos hr, List.foldl]
              exact ih _
            · simp only [if_neg hr]
              exact ih v

theorem foldl_exact_filterMap (kIdx vIdx : Nat) (b : String) :
    ∀ (l : List (Nat × List String)) (v : Value),
      l.foldl (fun v p =>
          if p.1 = 0 then v
          else
            match bucketRowKeyVal kIdx vIdx p.1 p.2 with
            | none => v
            | some kv =>
              if b = kv.1 then
                match parseFloatOpt kv.2 with
                | some q => Value.num q
                | none => v
              else v) v =
        (match (l.filterMap (fun p =>
            if p.1 = 0 then none
            else
              match bucketRowKeyVal kIdx vIdx p.1 p.2 with
              | none => none
              | some kv => if b = kv.1 then parseFloatOpt kv.2 else none)).getLast? with
         | some q => Value.num q
         | none => v) := by
  intro l
  induction l with
  | nil => intro v; rfl
  | cons p t ih =>
    intro v
    simp only [List.foldl, List.filterMap_cons]
    by_cases hp : p.1 = 0
    · simp only [if_pos hp]
      exact ih v
    · simp only [if_neg hp]
      rcases hkv : bucketRowKeyVal kIdx vIdx p.1 p.2 with _ | kv
      · simp only [hkv]
        exact ih v
      · simp only [hkv]
        by_cases hbk : b = kv.1
        · simp only [if_pos hbk]
          rcases hq : parseFloatOpt kv.2 with _ | q
          · simp only [hq]
            exact ih v
          · simp only [hq]
            rw [ih (Value.num q), getLast?_cons_eq]
            rcases hl : (t.filterMap _).getLast? with _ | q'
            · rw [List.getLastD_eq_getLast?, hl]
              rfl
            · rw [List.getLastD_eq_getLast?, hl]
              rfl
        · simp only [if_neg hbk]
          exact ih v

theorem bucket_plain_fold (kIdx vIdx : Nat) (b : String) (rows : List (List String)) :
    rows.enum.foldl (fun v p =>
        if p.1 = 0 then v
        else
          match bucketRowKeyVal kIdx vIdx p.1 p.2 with
          | none => v
          | some kv => bucketUpdateOne kv.1 kv.2 b v) (Value.intV 0) =
      bucketSpecValue rows kIdx vIdx b := by
  unfold bucketSpecValue
  by_cases hc : charIn b '-' = true
  · rw [if_pos hc]
    have hid : (∀ key value v, bucketUpdateOne key value b v = v) →
        rows.enum.foldl (fun v p =>
          if p.1 = 0 then v
          else
            match bucketRowKeyVal kIdx vIdx p.1 p.2 with
            | none => v
            | some kv => bucketUpdateOne kv.1 kv.2 b v) (Value.intV 0) = Value.intV 0 := by
      intro hone
      apply foldl_const
      intro v p
      by_cases hp : p.1 = 0
      · simp only [if_pos hp]
      · simp only [if_neg hp]
        rcases hkv : bucketRowKeyVal kIdx vIdx p.1 p.2 with _ | kv
        · rfl
        · exact hone kv.1 kv.2 v
    rcases hsp : pySplit b '-' with _ | ⟨lo, rest⟩
    · exact (hid (fun key value v => by
        unfold bucketUpdateOne; rw [if_pos hc, hsp])).trans (by rfl)
    · rcases rest with _ | ⟨hi, rest2⟩
      · exact (hid (fun key value v => by
          unfold bucketUpdateOne; rw [if_pos hc, hsp])).trans (by rfl)
      · rcases rest2 with _ | ⟨z, w⟩
        · rcases hlo : parseIntOpt lo with _ | mn
          · refine (hid (fun key value v => ?_)).trans (by simp only [hlo])
            unfold bucketUpdateOne
            rw [if_pos hc, hsp]
            simp only [hlo]
          · rcases hhi : parseIntOpt hi with _ | mx
            · refine (hid (fun key value v => ?_)).trans (by simp only [hlo, hhi])
              unfold bucketUpdateOne
              rw [if_pos hc, hsp]
              simp only [hlo, hhi]
            · conv_rhs => simp only [hlo, hhi]
              have hfun : (fun (v : Value) (p : Nat × List String) =>
                  if p.1 = 0 then v
                  else
                    match bucketRowKeyVal kIdx vIdx p.1 p.2 with
                    | none => v
                    | some kv => bucketUpdateOne kv.1 kv.2 b v) =
                  (fun v p =>
                    if p.1 = 0 then v
                    else
                      match bucketRowKeyVal kIdx vIdx p.1 p.2 with
                      | none => v
                      | some kv =>
                        match parseIntOpt kv.1, parseFloatOpt kv.2 with
                        | some ki, some q => if mn ≤ ki ∧ ki ≤ mx then addFloat v q else v
                        | _, _ => v) := by
                funext v p
                by_cases hp : p.1 = 0
                · simp only [if_pos hp]
                · simp only [if_neg hp]
                  rcases hkv : bucketRowKeyVal kIdx vIdx p.1 p.2 with _ | kv
                  · rfl
                  · exact bucketUpdateOne_range b lo hi mn mx hc hsp hlo hhi kv.1 kv.2 v
              rw [hfun, foldl_range_filterMap, foldl_addFloat_from_zero]
              rfl
        · exact (hid (fun key value v => by
            unfold bucketUpdateOne; rw [if_pos hc, hsp])).trans (by rfl)
  · have hc' : charIn b '-' = false := by
      cases h : charIn b '-'
      · rfl
      · exact absurd h hc
    rw [if_neg (by simp [hc'])]
    have hfun : (fun (v : Value) (p : Nat × List String) =>
        if p.1 = 0 then v
        else
          match bucketRowKeyVal kIdx vIdx p.1 p.2 with
          | none => v
          | some kv => bucketUpdateOne kv.1 kv.2 b v) =
        (fun v p =>
          if p.1 = 0 then v
          else
            match bucketRowKeyVal kIdx vIdx p.1 p.2 with
            | none => v
            | some kv =>
              if b = kv.1 then
                match parseFloatOpt kv.2 with
                | some q => Value.num q
                | none => v
              else v) := by
      funext v p
      by_cases hp : p.1 = 0
      · simp only [if_pos hp]
      · simp only [if_neg hp]
        rcases hkv : bucketRowKeyVal kIdx vIdx p.1 p.2 with _ | kv
        · rfl
        · exact bucketUpdateOne_exact b hc' kv.1 kv.2 v
    rw [hfun, foldl_exact_filterMap]
    rfl

/-! ### Key-uniqueness lemmas -/

theorem foldl_omap_keys_nodup {X : Type} (f : OMap → X → OMap)
    (hstep : ∀ m x, (omapKeys m).Nodup → (omapKeys (f m x)).Nodup) :
    ∀ (l : List X) (m : OMap), (omapKeys m).Nodup → (omapKeys (l.foldl f m)).Nodup := by
  intro l
  induction l with
  | nil => intro m h; exact h
  | cons x t ih =>
    intro m h
    exact ih _ (hstep m x h)

theorem enumFold_omap_keys_nodup (step : Nat → List String → OMap → OMap)
    (hstep : ∀ i r m, (omapKeys m).Nodup → (omapKeys (step i r m)).Nodup) :
    ∀ (rows : List (List String)) (i : Nat) (m : OMap),
      (omapKeys m).Nodup → (omapKeys (enumFold step i rows m)).Nodup := by
  intro rows
  induction rows with
  | nil => intro i m h; exact h
  | cons r t ih =>
    intro i m h
    exact ih _ _ (hstep i r m h)

theorem cpu_model_table_keys_nodup (td : List (List String)) :
    (omapKeys (cpu_model_table td)).Nodup := by
  apply enumFold_omap_keys_nodup
  · intro i r m h
    simp only [cpuModelStep]
    repeat' split
    all_goals first
    | exact h
    | exact keys_odWrite_nodup _ _ _ h
  · simp [omapKeys]

theorem one_line_colon_keys_nodup (td : List (List String)) :
    (omapKeys (one_line_colon_separator td)).Nodup := by
  apply enumFold_omap_keys_nodup
  · intro i r m h
    simp only [oneLineColonStep]
    repeat' split
    all_goals first
    | exact h
    | exact keys_odWrite_nodup _ _ _ h
  · simp [omapKeys]

theorem temp_avr_table_keys_nodup (td : List (List String)) (label : String) :
    (omapKeys (temp_avr_table td label)).Nodup := by
  apply enumFold_omap_keys_nodup
  · intro i r m h
    simp only [tempAvrStep]
    repeat' split
    all_goals first
    | exact h
    | exact keys_odWrite_nodup _ _ _ h
  · simp [omapKeys]

theorem os_wakeups_table_keys_nodup (td : List (List String)) :
    (omapKeys (os_wakeups_table td)).Nodup := by
  apply enumFold_omap_keys_nodup
  · intro i r m h
    simp only [osWakeupsStep]
    repeat' split
    all_goals first
    | exact h
    | exact keys_odWrite_nodup _ _ _ h
  · simp [omapKeys]

theorem default_residency_table_keys_nodup (td : List (List String)) (kIdx vIdx : Nat) :
    (omapKeys (default_residency_table td kIdx vIdx)).Nodup := by
  apply enumFold_omap_keys_nodup
  · intro i r m h
    simp only [defaultResidencyStep]
    repeat' split
    all_goals first
    | exact h
    | exact keys_odWrite_nodup _ _ _ h
  · simp [omapKeys]

theorem core_freq_avr_table_keys_nodup (td : List (List String)) (kIdx vIdx : Nat) :
    (omapKeys (core_freq_avr_table td kIdx vIdx)).Nodup := by
  unfold core_freq_avr_table
  split
  · simp [omapKeys]
  · split
    · apply enumFold_omap_keys_nodup
      · intro i r m h
        unfold coreFreqStep
        repeat' split
        all_goals first
        | exact h
        | exact keys_odWrite_nodup _ _ _ h
      · simp [omapKeys]
    · simp [omapKeys]

theorem bw_total_avr_keys_nodup (td : List (List String)) (label : String) :
    (omapKeys (bw_total_avr td label)).Nodup := by
  unfold bw_total_avr
  repeat' split
  all_goals simp [omapKeys]

theorem core_residency_table_keys_nodup (td : List (List String)) :
    (omapKeys (core_residency_table td)).Nodup := by
  unfold core_residency_table
  split
  · apply foldl_omap_keys_nodup
    · intro m p h
      split
      all_goals exact keys_odWrite_nodup _ _ _ h
    · split
      all_goals simp [omapKeys]
  · simp [omapKeys]

theorem bucketized_data_keys_nodup (kIdx vIdx : Nat) :
    ∀ (rows : List (List String)) (i : Nat) (st : OMap × OMap),
      (omapKeys st.1).Nodup →
      (omapKeys (enumFold (bucketizedStep kIdx vIdx) i rows st).1).Nodup := by
  intro rows
  induction rows with
  | nil => intro i st h; exact h
  | cons r t ih =>
    intro i st h
    apply ih
    unfold bucketizedStep
    split
    · exact keys_odWrite_nodup _ _ _ h
    · exact h

theorem bucketized_table_keys_nodup (td : List (List String)) (kIdx vIdx : Nat)
    (buckets : List String) :
    (omapKeys (bucketized_table td kIdx vIdx buckets)).Nodup := by
  unfold bucketized_table
  split
  · exact bucketized_data_keys_nodup kIdx vIdx td 0 _ (by simp [omapKeys])
  · apply keys_odFold_nodup
    simp [omapKeys]

theorem checker_keys_nodup (td : List (List String)) (label : String)
    (bucketsOpt : Option (List String)) :
    (omapKeys (socwatch_table_type_checker td label bucketsOpt)).Nodup := by
  unfold socwatch_table_type_checker
  repeat' split
  · exact cpu_model_table_keys_nodup td
  · exact core_residency_table_keys_nodup td
  · exact os_wakeups_table_keys_nodup td
  · exact core_freq_avr_table_keys_nodup td 0 1
  · exact default_residency_table_keys_nodup td 0 1
  · exact one_line_colon_keys_nodup td
  · exact bw_total_avr_keys_nodup td label
  · exact temp_avr_table_keys_nodup td label
  · exact default_residency_table_keys_nodup td 0 2
  · exact bucketized_table_keys_nodup td 0 1 _
  · exact default_residency_table_keys_nodup td 0 1

theorem takeWhile_append_all {α : Type} (p : α → Bool) :
    ∀ (a b : List α), (∀ x ∈ a, p x = true) →
      (a ++ b).takeWhile p = a ++ b.takeWhile p := by
  intro a
  induction a with
  | nil => intro b h; rfl
  | cons x t ih =>
    intro b h
    rw [List.cons_append, List.takeWhile_cons, if_pos (h x (List.mem_cons_self x t)),
      ih b (fun y hy => h y (List.mem_cons_of_mem x hy))]
    rfl

theorem lastSpaceFree_composite (f k : String) (h : noSpace k = true) :
    lastSpaceFree (compositeKey f k) = k.data := by
  unfold lastSpaceFree compositeKey
  have hdata : (f ++ SEP ++ k).data = (f.data ++ SEP.data) ++ k.data := rfl
  rw [hdata, List.reverse_append]
  have hall : ∀ x ∈ k.data.reverse, (fun c => decide (c ≠ ' ')) x = true := by
    intro x hx
    have hm : x ∈ k.data := List.mem_reverse.mp hx
    have := List.all_eq_true.mp h x hm
    simpa using this
  rw [takeWhile_append_all _ _ _ hall]
  have hsep : (f.data ++ SEP.data).reverse = ' ' :: (SEP.data.take 7).reverse ++ f.data.reverse := by
    rw [List.reverse_append]
    rfl
  rw [hsep]
  rw [List.cons_append, List.takeWhile_cons]
  simp

theorem compositeKey_inj_key (f1 k1 f2 k2 : String)
    (h1 : noSpace k1 = true) (h2 : noSpace k2 = true)
    (he : compositeKey f1 k1 = compositeKey f2 k2) : k1 = k2 := by
  have hd := congrArg lastSpaceFree he
  rw [lastSpaceFree_composite f1 k1 h1, lastSpaceFree_composite f2 k2 h2] at hd
  calc k1 = String.mk k1.data := rfl
  _ = String.mk k2.data := by rw [hd]
  _ = k2 := rfl

theorem compositeKey_inj_field (f1 f2 k : String)
    (he : compositeKey f1 k = compositeKey f2 k) : f1 = f2 := by
  have hd : f1.data ++ (SEP.data ++ k.data) = f2.data ++ (SEP.data ++ k.data) := by
    have h0 : (f1 ++ SEP ++ k).data = (f2 ++ SEP ++ k).data := congrArg String.data he
    simpa [List.append_assoc] using h0
  have hc := List.append_cancel_right hd
  calc f1 = String.mk f1.data := rfl
  _ = String.mk f2.data := by rw [hc]
  _ = f2 := rfl

theorem tableWrites_keys_shape (t : Target) (d : OMap) (k : String)
    (h : k ∈ (tableWrites t d).map Prod.fst) : ∃ f, k = compositeKey f t.key := by
  unfold tableWrites at h
  rw [List.map_append] at h
  rcases List.mem_append.mp h with h | h
  · revert h
    split
    · intro h
      simp only [List.map, List.mem_singleton] at h
      exact ⟨get_table_header_text t.key, h⟩
    · intro h
      simp at h
  · rw [List.map_map] at h
    rcases List.mem_map.mp h with ⟨p, _, he⟩
    exact ⟨p.1, he.symm⟩

theorem tableWrites_keys_nodup (t : Target) (d : OMap)
    (hd : (omapKeys d).Nodup)
    (hh : is_specialized_table_format d t.key = false →
      get_table_header_text t.key ∉ omapKeys d) :
    ((tableWrites t d).map Prod.fst).Nodup := by
  have hmapnd : ((d.map (fun p => (compositeKey p.1 t.key, p.2))).map Prod.fst).Nodup := by
    rw [List.map_map]
    have : (Prod.fst ∘ fun p : String × Value => (compositeKey p.1 t.key, p.2)) =
        (fun f => compositeKey f t.key) ∘ Prod.fst := rfl
    rw [this, ← List.map_map]
    exact List.Nodup.map (fun a b hab => compositeKey_inj_field a b t.key hab) hd
  unfold tableWrites
  rw [List.map_append]
  split
  · rename_i hspec
    have hspec' : is_specialized_table_format d t.key = false := by
      cases h : is_specialized_table_format d t.key
      · rfl
      · rw [h] at hspec; simp at hspec
    rw [List.nodup_append]
    refine ⟨List.nodup_singleton _, hmapnd, ?_⟩
    intro a ha hb
    have ha' : a = compositeKey (get_table_header_text t.key) t.key := by
      simpa using ha
    rw [List.map_map] at hb
    rcases List.mem_map.mp hb with ⟨p, hp, he⟩
    have : get_table_header_text t.key = p.1 := by
      apply compositeKey_inj_field _ _ t.key
      rw [← ha', ← he]
      rfl
    exact (hh hspec') (this ▸ List.mem_map_of_mem Prod.fst hp)
  · simpa using hmapnd

theorem resultWrites_keys_shape :
    ∀ (tables : List (Target × OMap)) (k : String),
      k ∈ (resultWrites tables).map Prod.fst →
      ∃ td ∈ tables, ∃ f, k = compositeKey f td.1.key := by
  intro tables
  induction tables with
  | nil => intro k h; simp [resultWrites] at h
  | cons td rest ih =>
    intro k h
    unfold resultWrites at h
    rw [List.map_append] at h
    rcases List.mem_append.mp h with h | h
    · revert h
      split
      · intro h
        simp at h
      · intro h
        rcases tableWrites_keys_shape td.1 td.2 k h with ⟨f, hf⟩
        exact ⟨td, List.mem_cons_self _ _, f, hf⟩
    · rcases ih k h with ⟨td', h1, f, hf⟩
      exact ⟨td', List.mem_cons_of_mem _ h1, f, hf⟩

theorem resultWrites_keys_nodup :
    ∀ (tables : List (Target × OMap)),
      (tables.map (fun td => td.1.key)).Nodup →
      (∀ td ∈ tables, noSpace td.1.key = true) →
      (∀ td ∈ tables, (omapKeys td.2).Nodup) →
      (∀ td ∈ tables, is_specialized_table_format td.2 td.1.key = false →
        get_table_header_text td.1.key ∉ omapKeys td.2) →
      ((resultWrites tables).map Prod.fst).Nodup := by
  intro tables
  induction tables with
  | nil => intro _ _ _ _; simp [resultWrites]
  | cons td rest ih =>
    intro hk hs hd hh
    unfold resultWrites
    rw [List.map_append, List.nodup_append]
    refine ⟨?_, ?_, ?_⟩
    · split
      · simp
      · exact tableWrites_keys_nodup td.1 td.2 (hd td (List.mem_cons_self _ _))
          (hh td (List.mem_cons_self _ _))
    · exact ih (List.nodup_cons.mp hk).2
        (fun t' ht' => hs t' (List.mem_cons_of_mem _ ht'))
        (fun t' ht' => hd t' (List.mem_cons_of_mem _ ht'))
        (fun t' ht' => hh t' (List.mem_cons_of_mem _ ht'))
    · intro a ha hb
      have hsh : ∃ f, a = compositeKey f td.1.key := by
        revert ha
        split
        · intro ha; simp at ha
        · intro ha; exact tableWrites_keys_shape td.1 td.2 a ha
      rcases hsh with ⟨f, hf⟩
      rcases resultWrites_keys_shape rest a hb with ⟨td', htd', f', hf'⟩
      have hkeq : td.1.key = td'.1.key :=
        compositeKey_inj_key f td.1.key f' td'.1.key (hs td (List.mem_cons_self _ _))
          (hs td' (List.mem_cons_of_mem _ htd')) (hf.symm.trans hf')
      have hnotin : td.1.key ∉ rest.map (fun td => td.1.key) := by
        have hcons : (td.1.key :: rest.map (fun td => td.1.key)).Nodup := by
          simpa using hk
        exact (List.nodup_cons.mp hcons).1
      apply hnotin
      rw [hkeq]
      exact List.mem_map_of_mem (fun td => td.1.key) htd'

theorem odFold_append (m : OMap) (a b : List (String × Value)) :
    odFold m (a ++ b) = odFold (odFold m a) b := List.foldl_append _ _ _ _

theorem odWrite_append_left (m1 m2 : OMap) (k : String) (v : Value)
    (h : k ∉ omapKeys m1) : odWrite (m1 ++ m2) k v = m1 ++ odWrite m2 k v := by
  have hany : m1.any (fun p => p.1 = k) = false := by
    rw [List.any_eq_false]
    intro p hp
    simp only [decide_eq_true_eq]
    intro he
    exact h (he ▸ List.mem_map_of_mem Prod.fst hp)
  unfold odWrite
  rw [List.any_append, hany, Bool.false_or]
  by_cases h2 : m2.any (fun p => p.1 = k)
  · rw [if_pos h2, if_pos h2, List.map_append]
    congr 1
    conv_rhs => rw [← List.map_id m1]
    apply List.map_eq_map_iff.mpr
    intro p hp
    rw [if_neg (fun he => h (by rw [← he]; exact List.mem_map_of_mem Prod.fst hp))]
    rfl
  · rw [if_neg h2, if_neg h2, List.append_assoc]

theorem odFold_append_left (ws : List (String × Value)) :
    ∀ (m1 m2 : OMap), (∀ k ∈ ws.map Prod.fst, k ∉ omapKeys m1) →
      odFold (m1 ++ m2) ws = m1 ++ odFold m2 ws := by
  induction ws with
  | nil => intro m1 m2 h; rfl
  | cons w t ih =>
    intro m1 m2 h
    show odFold (odWrite (m1 ++ m2) w.1 w.2) t = m1 ++ odFold (odWrite m2 w.1 w.2) t
    rw [odWrite_append_left m1 m2 w.1 w.2 (h w.1 (by simp))]
    exact ih m1 _ (fun k hk => h k (by simp [hk]))

theorem odFold_nil_of_nodup :
    ∀ (ws : List (String × Value)), (ws.map Prod.fst).Nodup → odFold [] ws = ws := by
  intro ws
  induction ws with
  | nil => intro _; rfl
  | cons w t ih =>
    intro h
    show odFold (odWrite [] w.1 w.2) t = w :: t
    have h1 : odWrite [] w.1 w.2 = [(w.1, w.2)] ++ [] := rfl
    rw [h1, odFold_append_left t [(w.1, w.2)] []
      (fun k hk hmem => by
        have hk1 : k = w.1 := by simpa [omapKeys] using hmem
        exact (List.nodup_cons.mp (by simpa using h)).1 (hk1 ▸ hk))]
    rw [ih (List.nodup_cons.mp (by simpa using h)).2]
    rfl

theorem metrics_eq_odFold :
    ∀ (tables : List (Target × OMap)) (acc : OMap),
      tables.foldl (fun acc td =>
        if td.2.isEmpty then acc else odFold acc (tableWrites td.1 td.2)) acc =
      odFold acc (resultWrites tables) := by
  intro tables
  induction tables with
  | nil => intro acc; rfl
  | cons td rest ih =>
    intro acc
    rw [List.foldl_cons]
    unfold resultWrites
    rw [odFold_append]
    by_cases he : td.2.isEmpty
    · rw [if_pos he, if_pos he]
      exact ih acc
    · rw [if_neg he, if_neg he]
      exact ih _

theorem filterMap_map_sublist {α β : Type} (f : α → Option β) (g : β → α)
    (hfg : ∀ x y, f x = some y → g y = x) :
    ∀ l : List α, ((l.filterMap f).map g).Sublist l := by
  intro l
  induction l with
  | nil => simp
  | cons x t ih =>
    rw [List.filterMap_cons]
    cases h : f x with
    | none => exact ih.cons x
    | some y =>
      rw [List.map_cons, hfg x y h]
      exact ih.cons₂ x

theorem parse_targets_sublist (lines : List String) (ts : List Target) :
    ((parse_socwatch_content lines ts).map (fun td => td.1)).Sublist ts := by
  apply filterMap_map_sublist
  intro x y h
  simp only at h
  cases hl : locate x.lookup lines with
  | none => rw [hl] at h; cases h
  | some i =>
    simp only [hl] at h
    by_cases hd : (extract_table_data lines i x).isEmpty
    · rw [if_pos hd] at h; cases h
    · rw [if_neg hd] at h
      injection h with h
      rw [← h]

theorem parse_keys_nodup (lines : List String) (ts : List Target)
    (h : (ts.map Target.key).Nodup) :
    ((parse_socwatch_content lines ts).map (fun td => td.1.key)).Nodup := by
  have hsub := (parse_targets_sublist lines ts).map Target.key
  have he : (parse_socwatch_content lines ts).map (fun td => td.1.key) =
      ((parse_socwatch_content lines ts).map (fun td => td.1)).map Target.key := by
    rw [List.map_map]
    rfl
  rw [he]
  exact List.Nodup.sublist hsub h

theorem parse_mem_targets (lines : List String) (ts : List Target)
    (td : Target × OMap) (h : td ∈ parse_socwatch_content lines ts) : td.1 ∈ ts :=
  (parse_targets_sublist lines ts).subset (List.mem_map_of_mem (fun td => td.1) h)

theorem parse_data_nodup (lines : List String) (ts : List Target) :
    ∀ td ∈ parse_socwatch_content lines ts, (omapKeys td.2).Nodup := by
  intro td htd
  unfold parse_socwatch_content at htd
  rcases List.mem_filterMap.mp htd with ⟨t, _, hf⟩
  cases hl : locate t.lookup lines with
  | none => rw [hl] at hf; cases hf
  | some i =>
    simp only [hl] at hf
    by_cases hd : (extract_table_data lines i t).isEmpty
    · rw [if_pos hd] at hf; cases hf
    · rw [if_neg hd] at hf
      injection hf with hf
      rw [← hf]
      show (omapKeys (extract_table_data lines i t)).Nodup
      simp only [extract_table_data]
      split
      · simp [omapKeys]
      · exact checker_keys_nodup _ _ _

/-! ### Section-locality lemmas -/

theorem locate_append_some (lk : String) :
    ∀ (xs ys : List String) (i : Nat), locate lk xs = some i →
      locate lk (xs ++ ys) = some i := by
  intro xs
  induction xs with
  | nil => intro ys i h; cases h
  | cons a t ih =>
    intro ys i h
    simp only [locate] at h
    simp only [List.cons_append, locate, List.append_eq]
    by_cases ha : strContains a lk = true
    · rw [if_pos ha] at h ⊢
      exact h
    · rw [if_neg ha] at h ⊢
      cases hl : locate lk t with
      | none => rw [hl] at h; cases h
      | some j =>
        rw [hl] at h
        rw [ih ys j hl]
        exact h

theorem locate_append_none (lk : String) :
    ∀ (xs ys : List String), locate lk xs = none →
      locate lk (xs ++ ys) = (locate lk ys).map (· + xs.length) := by
  intro xs
  induction xs with
  | nil =>
    intro ys h
    simp only [List.nil_append, List.length_nil]
    cases hl : locate lk ys with
    | none => rfl
    | some j => simp
  | cons a t ih =>
    intro ys h
    simp only [locate] at h
    simp only [List.cons_append, locate, List.append_eq]
    by_cases ha : strContains a lk = true
    · rw [if_pos ha] at h
      cases h
    · rw [if_neg ha] at h ⊢
      cases hl : locate lk t with
      | none =>
        rw [ih ys hl]
        cases hy : locate lk ys with
        | none => rfl
        | some j =>
          simp only [Option.map_map, Option.map_some', List.length_cons]
          congr 1
      | some j => rw [hl] at h; cases h

theorem locate_some_lt (lk : String) :
    ∀ (xs : List String) (i : Nat), locate lk xs = some i → i < xs.length := by
  intro xs
  induction xs with
  | nil => intro i h; cases h
  | cons a t ih =>
    intro i h
    simp only [locate] at h
    by_cases ha : strContains a lk = true
    · rw [if_pos ha] at h
      injection h with h
      simp [← h]
    · rw [if_neg ha] at h
      cases hl : locate lk t with
      | none => rw [hl] at h; cases h
      | some j =>
        rw [hl] at h
        simp only [Option.map_some'] at h
        injection h with h
        have hj := ih j hl
        simp only [List.length_cons]
        omega

theorem locate_isSome_of_found (lk : String) :
    ∀ (xs : List String), (∃ l ∈ xs, strContains l lk = true) →
      ∃ i, locate lk xs = some i := by
  intro xs
  induction xs with
  | nil => intro h; rcases h with ⟨l, hl, _⟩; cases hl
  | cons a t ih =>
    intro h
    simp only [locate]
    by_cases ha : strContains a lk = true
    · exact ⟨0, by rw [if_pos ha]⟩
    · rcases h with ⟨l, hl, hc⟩
      rcases List.mem_cons.mp hl with rfl | hl'
      · exact absurd hc ha
      · rcases ih ⟨l, hl', hc⟩ with ⟨j, hj⟩
        exact ⟨j + 1, by rw [if_neg ha, hj]; rfl⟩

theorem strContains_empty_false (p : String) (h : p ≠ "") :
    strContains "" p = false := by
  unfold strContains containsSub
  have hp : p.data ≠ [] := by
    intro hd
    exact h (show p = "" from congrArg String.mk hd)
  cases hd : p.data with
  | nil => exact absurd hd hp
  | cons c cs => simp [List.isPrefixOf, hd]

theorem collect_append_of_blank :
    ∀ (xs ys : List String), (∃ l ∈ xs, pyStrip l = "") →
      collectTableLines (xs ++ ys) = collectTableLines xs := by
  intro xs
  induction xs with
  | nil => intro ys h; rcases h with ⟨l, hl, _⟩; cases hl
  | cons a t ih =>
    intro ys h
    by_cases ha : pyStrip a = ""
    · simp only [List.cons_append, collectTableLines, ha]
      rfl
    · have ht : ∃ l ∈ t, pyStrip l = "" := by
        rcases h with ⟨l, hl, hc⟩
        rcases List.mem_cons.mp hl with rfl | hl'
        · exact absurd hc ha
        · exact ⟨l, hl', hc⟩
      simp only [List.cons_append, collectTableLines, ha, if_false, List.append_eq]
      split
      · exact ih ys ht
      · split
        · exact ih ys ht
        · rw [ih ys ht]

theorem extract_defeq_collect (lines1 lines2 : List String) (i1 i2 : Nat) (t : Target)
    (h : collectTableLines (lines1.drop (i1 + 1)) =
      collectTableLines (lines2.drop (i2 + 1))) :
    extract_table_data lines1 i1 t = extract_table_data lines2 i2 t := by
  unfold extract_table_data
  rw [h]

theorem parse_one_eq (P s rest : List String) (t : Target) (i : Nat)
    (hP : ∀ l ∈ P, strContains l t.lookup = false)
    (hloc : locate t.lookup s = some i) :
    locate t.lookup (P ++ ((s ++ [""]) ++ rest)) = some (i + P.length) ∧
    extract_table_data (P ++ ((s ++ [""]) ++ rest)) (i + P.length) t =
      extract_table_data (s ++ [""]) i t := by
  have hi : i < s.length := locate_some_lt t.lookup s i hloc
  constructor
  · rw [locate_append_none t.lookup P _ (locate_eq_none t.lookup P hP),
      locate_append_some t.lookup (s ++ [""]) rest i
        (locate_append_some t.lookup s [""] i hloc)]
    rfl
  · apply extract_defeq_collect
    have h1 : (P ++ ((s ++ [""]) ++ rest)).drop (i + P.length + 1) =
        ((s ++ [""]) ++ rest).drop (i + 1) := by
      have : i + P.length + 1 = P.length + (i + 1) := by omega
      rw [this, List.drop_append]
    rw [h1]
    have h2 : ((s ++ [""]) ++ rest).drop (i + 1) = (s ++ [""]).drop (i + 1) ++ rest :=
      List.drop_append_of_le_length (by simp; omega)
    rw [h2]
    apply collect_append_of_blank
    have h3 : (s ++ [""]).drop (i + 1) = s.drop (i + 1) ++ [""] :=
      List.drop_append_of_le_length (by omega)
    rw [h3]
    exact ⟨"", by simp, rfl⟩

theorem keys_odWrite_subset (m : OMap) (k : String) (v : Value) (x : String)
    (h : x ∈ omapKeys (odWrite m k v)) : x ∈ omapKeys m ∨ x = k := by
  unfold odWrite at h
  by_cases ha : m.any (fun p => p.1 = k)
  · rw [if_pos ha] at h
    left
    unfold omapKeys at h ⊢
    rw [List.map_map] at h
    rcases List.mem_map.mp h with ⟨p, hp, he⟩
    by_cases hpk : p.1 = k
    · rw [← he]
      simp only [Function.comp, if_pos hpk]
      rw [← hpk]
      exact List.mem_map_of_mem Prod.fst hp
    · rw [← he]
      simp only [Function.comp, if_neg hpk]
      exact List.mem_map_of_mem Prod.fst hp
  · rw [if_neg ha] at h
    unfold omapKeys at h
    rw [List.map_append] at h
    rcases List.mem_append.mp h with h | h
    · left; exact h
    · right; simpa using h

theorem keys_odFold_subset :
    ∀ (ws : List (String × Value)) (m : OMap) (x : String),
      x ∈ omapKeys (odFold m ws) → x ∈ omapKeys m ∨ x ∈ ws.map Prod.fst := by
  intro ws
  induction ws with
  | nil => intro m x h; left; exact h
  | cons w t ih =>
    intro m x h
    rcases ih (odWrite m w.1 w.2) x h with h1 | h1
    · rcases keys_odWrite_subset m w.1 w.2 x h1 with h2 | h2
      · left; exact h2
      · right; simp [h2]
    · right
      simp only [List.map]
      exact List.mem_cons_of_mem _ h1

theorem odFold_resultWrites_blocks :
    ∀ (tables : List (Target × OMap)),
      (tables.map (fun td => td.1.key)).Nodup →
      (∀ td ∈ tables, noSpace td.1.key = true) →
      odFold [] (resultWrites tables) = specBlocks tables := by
  intro tables
  induction tables with
  | nil => intro _ _; rfl
  | cons td rest ih =>
    intro hk hs
    unfold resultWrites specBlocks
    rw [odFold_append]
    have hB : odFold [] (if td.2.isEmpty then [] else tableWrites td.1 td.2) =
        (if td.2.isEmpty then [] else tableBlock td.1 td.2) := by
      split
      · rfl
      · rfl
    have hdisj : ∀ k ∈ (resultWrites rest).map Prod.fst,
        k ∉ omapKeys (odFold [] (if td.2.isEmpty then [] else tableWrites td.1 td.2)) := by
      intro k hk' hmem
      rcases keys_odFold_subset _ [] k hmem with h0 | h0
      · simp [omapKeys] at h0
      · have hsh : ∃ f, k = compositeKey f td.1.key := by
          revert h0
          split
          · intro h0; simp at h0
          · intro h0; exact tableWrites_keys_shape td.1 td.2 k h0
        rcases hsh with ⟨f, hf⟩
        rcases resultWrites_keys_shape rest k hk' with ⟨td', htd', f', hf'⟩
        have hkeq : td.1.key = td'.1.key :=
          compositeKey_inj_key f td.1.key f' td'.1.key
            (hs td (List.mem_cons_self _ _))
            (hs td' (List.mem_cons_of_mem _ htd'))
            (hf.symm.trans hf')
        have hnotin : td.1.key ∉ rest.map (fun td => td.1.key) := by
          have hcons : (td.1.key :: rest.map (fun td => td.1.key)).Nodup := by
            simpa using hk
          exact (List.nodup_cons.mp hcons).1
        exact hnotin (hkeq ▸ List.mem_map_of_mem (fun td => td.1.key) htd')
    calc odFold (odFold [] (if td.2.isEmpty then [] else tableWrites td.1 td.2))
          (resultWrites rest)
        = odFold ((odFold [] (if td.2.isEmpty then [] else tableWrites td.1 td.2)) ++ [])
          (resultWrites rest) := by rw [List.append_nil]
      _ = (odFold [] (if td.2.isEmpty then [] else tableWrites td.1 td.2)) ++
          odFold [] (resultWrites rest) := odFold_append_left _ _ _ hdisj
      _ = (if td.2.isEmpty then [] else tableBlock td.1 td.2) ++ specBlocks rest := by
          rw [hB, ih (List.nodup_cons.mp (by simpa using hk)).2
            (fun t' ht' => hs t' (List.mem_cons_of_mem _ ht'))]

theorem metrics_eq_specBlocks (lines : List String) (ts : List Target)
    (hkeys : (ts.map Target.key).Nodup)
    (hsp : ∀ t ∈ ts, noSpace t.key = true) :
    extract_target_metrics (parse_socwatch_content lines ts) =
      specBlocks (parse_socwatch_content lines ts) := by
  show (parse_socwatch_content lines ts).foldl _ [] = _
  rw [metrics_eq_odFold]
  exact odFold_resultWrites_blocks _ (parse_keys_nodup lines ts hkeys)
    (fun td htd => hsp td.1 (parse_mem_targets lines ts td htd))

theorem parse_nil (lines : List String) : parse_socwatch_content lines [] = [] := rfl

theorem parse_single_step (lines : List String) (t : Target) (ts : List Target)
    (i : Nat) (D : OMap)
    (hloc : locate t.lookup lines = some i)
    (hext : extract_table_data lines i t = D) :
    parse_socwatch_content lines (t :: ts) =
      if D.isEmpty then parse_socwatch_content lines ts
      else (t, D) :: parse_socwatch_content lines ts := by
  unfold parse_socwatch_content
  rw [List.filterMap_cons]
  simp only [hloc, hext]
  cases hD : D.isEmpty
  · simp only [hD, Bool.false_eq_true, if_false]
  · simp only [hD, if_true]

/-! ## Claim theorems -/

/-- C1: end-to-end extraction of a residency table.  For the given document
and the single target with key Core_Cstate, the ResultMapping contains
exactly the pairs State→"A", C0 (%)→45.2, C1 (%)→32.1 under the eight-space
separator; the dash line is skipped and the blank line ends the section. -/
theorem C1_end_to_end_residency :
    parseSocwatch
        "Core C-State Summary: Residency (Percentage and Time)\n---\nState,C0 (%),C1 (%)\nA,45.2,32.1\n\n"
        [{ key := "Core_Cstate",
           lookup := "Core C-State Summary: Residency (Percentage and Time)" }] =
      [(compositeKey "State" "Core_Cstate", Value.str "A"),
       (compositeKey "C0 (%)" "Core_Cstate", Value.num (mkRat 226 5)),
       (compositeKey "C1 (%)" "Core_Cstate", Value.num (mkRat 321 10))] := by
  decide

/-- C3: bucket accumulation example.  With buckets 0, 1900, 1901-2900 and
the given data rows, the range bucket accumulates 4.0 + 1.0 = 5.0 while the
exact buckets receive 5.0 and 3.0 by assignment. -/
theorem C3_bucket_accumulation :
    bucketized_table
        [["State", "Res"], ["0", "5.0"], ["1900", "3.0"], ["2000", "4.0"], ["2500", "1.0"]]
        0 1 ["0", "1900", "1901-2900"] =
      [("State", Value.str "Res"), ("0", Value.num (mkRat 5 1)),
       ("1900", Value.num (mkRat 3 1)), ("1901-2900", Value.num (mkRat 5 1))] := by
  decide

/-- C4 counterexample: the bucket loop has no early exit and no final
rounding.  The row key 1900 matches the exact bucket "1900" first, yet the
later range bucket "1800-2000" is also updated to 3.0 (the claim says no
later bucket is affected); and a bucket accumulating 1.234 keeps the value
1.234 = 617/500 instead of being rounded to 1.23. -/
theorem C4_counterexample :
    bucketized_table [["h", "v"], ["1900", "3.0"]] 0 1 ["1900", "1800-2000"] =
      [("h", Value.str "v"), ("1900", Value.num (mkRat 3 1)),
       ("1800-2000", Value.num (mkRat 3 1))] ∧
    bucketized_table [["h", "v"], ["5", "1.234"]] 0 1 ["0-10"] =
      [("h", Value.str "v"), ("0-10", Value.num (mkRat 617 500))] := by
  exact ⟨by decide, by decide⟩

/-- C4 amended: every bucket spec is tested against every data row with no
early exit, so buckets act independently: a range bucket ends up holding
the exact, unrounded sum of the values of all data rows whose integer key
falls in its inclusive range, an exact-match bucket holds the value of the
last matching row (assignment, not accumulation), untouched buckets keep
the integer seed 0, and no rounding is applied after processing. -/
theorem C4_bucket_independence_amended (rows : List (List String))
    (kIdx vIdx : Nat) (buckets : List String) (b : String) (hb : b ∈ buckets) :
    omapFind (bucketized_table rows kIdx vIdx buckets) b =
      some (bucketSpecValue rows kIdx vIdx b) := by
  set seed : OMap := buckets.foldl (fun m bk => odWrite m bk (Value.intV 0)) [] with hseed
  have hne : buckets.isEmpty = false := by
    cases buckets
    · simp at hb
    · rfl
  have hseedfind : omapFind seed b = some (Value.intV 0) := by
    rw [hseed]
    exact seed_find b buckets [] (Or.inl hb)
  have hseednd : (omapKeys seed).Nodup := by
    rw [hseed]
    exact seed_keys_nodup buckets [] (by simp [omapKeys])
  have hfind := bucketized_loop_find kIdx vIdx b rows 0 ([], seed)
  have hsnd : ((([] : OMap), seed)).2 = seed := rfl
  rw [hsnd, hseedfind, foldl_effect_some] at hfind
  have henum : rows.enumFrom 0 = rows.enum := rfl
  rw [henum, bucket_plain_fold] at hfind
  have hmem : b ∈ omapKeys (enumFold (bucketizedStep kIdx vIdx) 0 rows ([], seed)).2 :=
    omapFind_some_mem _ _ _ hfind
  have hnd2 : (omapKeys (enumFold (bucketizedStep kIdx vIdx) 0 rows ([], seed)).2).Nodup := by
    rw [bucketized_keys_const]
    exact hseednd
  simp only [bucketized_table, hne]
  rw [← hseed, if_neg (show ¬ (false = true) by decide)]
  rw [omapFind_odFold_nodup _ _ _ hnd2 hmem]
  exact hfind

/-- Witness for C4 at the bucket-accumulation data of the specification:
the range bucket 1901-2900 holds the sum 5.0. -/
theorem C4_bucket_independence_amended_witness :
    ("1901-2900" : String) ∈ (["0", "1900", "1901-2900"] : List String) ∧
    omapFind (bucketized_table
        [["State", "Res"], ["0", "5.0"], ["1900", "3.0"], ["2000", "4.0"], ["2500", "1.0"]]
        0 1 ["0", "1900", "1901-2900"]) "1901-2900" =
      some (bucketSpecValue
        [["State", "Res"], ["0", "5.0"], ["1900", "3.0"], ["2000", "4.0"], ["2500", "1.0"]]
        0 1 "1901-2900") :=
  ⟨by decide,
   C4_bucket_independence_amended
     [["State", "Res"], ["0", "5.0"], ["1900", "3.0"], ["2000", "4.0"], ["2500", "1.0"]]
     0 1 ["0", "1900", "1901-2900"] "1901-2900" (by decide)⟩

/-- C5 counterexample: the colon-scalar extractor keys the pair by the text
before the FIRST colon, not the last.  On the row "a:b: 7" the code emits
the key "a" whereas the claim predicts "a:b". -/
theorem C5_counterexample :
    one_line_colon_separator [["a:b: 7"]] = [("a", Value.intV 7)] ∧
    ("a" : String) ≠ "a:b" := by
  exact ⟨by decide, by decide⟩

/-- C6 counterexample: a line with non-dash content after a three-dash
prefix is skipped, not tokenized.  The claim predicts the row ["---header"];
the tokenizer returns no rows at all. -/
theorem C6_counterexample :
    collectTableLines ["---header", ""] = [] ∧
    ([] : List (List String)) ≠ [["---header"]] := by
  exact ⟨by decide, by decide⟩

/-- C9 counterexample: a composite key can be written twice.  For the table
key S0ix_Substate with data keys "State (ms)" and "State", the synthesized
header pair reuses the composite key of the data key "State", so the write
sequence repeats that key and the header value is silently overwritten. -/
theorem C9_counterexample :
    (parse_socwatch_content
        (pySplit "L\nState (ms),Residency (%)\nState,5\n\n" '\n')
        [{ key := "S0ix_Substate", lookup := "L" }]).map
      (fun td => (tableWrites td.1 td.2).map Prod.fst) =
      [[compositeKey "State" "S0ix_Substate",
        compositeKey "State (ms)" "S0ix_Substate",
        compositeKey "State" "S0ix_Substate"]] ∧
    ¬ List.Nodup [compositeKey "State" "S0ix_Substate",
        compositeKey "State (ms)" "S0ix_Substate",
        compositeKey "State" "S0ix_Substate"] := by
  exact ⟨by decide, by decide⟩

/-- C2 counterexample: with catalog keys that may contain the separator's
spaces, composite keys of different tables can coincide, and then catalog
grouping fails.  Targets A, B, C (pairwise distinct, in this catalog order)
all match, "b" is a data key of B's table and "h" one of C's table, yet C's
composite key sits at position 0 of the ResultMapping, before B's — so not
every key of B's table precedes every key of C's table. -/
theorem C2_counterexample :
    (parse_socwatch_content
        (pySplit "LA\nh        a,2\n\nLB\nb,3\n\nLC\nh,1\n\n" '\n')
        [{ key := "K", lookup := "LA" }, { key := "KB", lookup := "LB" },
         { key := "a        K", lookup := "LC" }] =
      [({ key := "K", lookup := "LA" }, [("h        a", Value.num (mkRat 2 1))]),
       ({ key := "KB", lookup := "LB" }, [("b", Value.num (mkRat 3 1))]),
       ({ key := "a        K", lookup := "LC" }, [("h", Value.num (mkRat 1 1))])]) ∧
    omapKeys (parseSocwatch "LA\nh        a,2\n\nLB\nb,3\n\nLC\nh,1\n\n"
        [{ key := "K", lookup := "LA" }, { key := "KB", lookup := "LB" },
         { key := "a        K", lookup := "LC" }]) =
      [compositeKey "h" "a        K", compositeKey "b" "KB"] ∧
    ¬ (List.indexOf (compositeKey "b" "KB")
          [compositeKey "h" "a        K", compositeKey "b" "KB"] <
        List.indexOf (compositeKey "h" "a        K")
          [compositeKey "h" "a        K", compositeKey "b" "KB"]) := by
  exact ⟨by decide, by decide, by decide⟩

/-- C6 amended: the row tokenizer terminates on the first blank-after-trim
line; it skips exactly those lines that, after trimming, either start with
three dashes or consist solely of dashes and spaces (so "---header" is
skipped, not tokenized); every other line is tokenized into a row when at
least one field survives comma-splitting and trimming, and dropped
otherwise. -/
theorem C6_tokenizer_amended (l : String) (rest : List String) :
    (pyStrip l = "" → collectTableLines (l :: rest) = []) ∧
    (pyStrip l ≠ "" → sepSkipLine (pyStrip l) = true →
      collectTableLines (l :: rest) = collectTableLines rest) ∧
    (pyStrip l ≠ "" → sepSkipLine (pyStrip l) = false →
      collectTableLines (l :: rest) =
        if tokenizeFields (pyStrip l) = [] then collectTableLines rest
        else tokenizeFields (pyStrip l) :: collectTableLines rest) := by
  have hcond : (pyStartsWith (pyStrip l) "---" || dashSpaceOnly (pyStrip l)) =
      sepSkipLine (pyStrip l) := by
    unfold sepSkipLine dashSpaceOnly
    rw [filter_filter_isEmpty_eq_all]
  refine ⟨fun h => by simp [collectTableLines, h], fun h1 h2 => ?_, fun h1 h2 => ?_⟩
  · simp only [collectTableLines]
    rw [if_neg h1, hcond, h2]
    rfl
  · simp only [collectTableLines]
    rw [if_neg h1, hcond, h2]
    simp [List.isEmpty_iff]

/-- Witness for C6: the pure-dash separator line "---" is skipped, and an
ordinary line "a,1" is tokenized. -/
theorem C6_tokenizer_witness :
    (pyStrip ("---" : String) ≠ "" ∧ sepSkipLine (pyStrip "---") = true ∧
      collectTableLines ["---", "a,1", ""] = collectTableLines ["a,1", ""]) ∧
    (pyStrip ("a,1" : String) ≠ "" ∧ sepSkipLine (pyStrip "a,1") = false ∧
      collectTableLines ["a,1", ""] =
        (if tokenizeFields (pyStrip "a,1") = [] then collectTableLines [""]
         else tokenizeFields (pyStrip "a,1") :: collectTableLines [""])) :=
  ⟨⟨by decide, by decide,
    (C6_tokenizer_amended "---" ["a,1", ""]).2.1 (by decide) (by decide)⟩,
   ⟨by decide, by decide,
    (C6_tokenizer_amended "a,1" [""]).2.2 (by decide) (by decide)⟩⟩

/-- C5 amended: the colon-scalar extractor keys each colon-bearing first
field by the trimmed text before the FIRST colon and maps it to the trimmed
text after the LAST colon, coerced to float when it holds a point, to int
otherwise, and kept as a string on parse failure; in particular the row
"Dynamic Display Count: 12" yields the integer 12. -/
theorem C5_colon_scalar_amended :
    (∀ rows : List (List String),
      one_line_colon_separator rows = colon_scalar_spec rows) ∧
    one_line_colon_separator [["Dynamic Display Count: 12"]] =
      [("Dynamic Display Count", Value.intV 12)] := by
  have hstep : ∀ (i : Nat) (r : List String) (m : OMap),
      oneLineColonStep i r m =
        (match r with
         | [] => m
         | f :: _ => if charIn f ':' then odWrite m (colonKeyOf f) (colonValOf f) else m) := by
    intro i r m
    cases r with
    | nil => rfl
    | cons f t =>
      simp only [oneLineColonStep]
      by_cases h : charIn f ':' = true
      · rw [if_pos h, if_pos h, if_pos (pySplit_length_ge_two f ':' h)]
        rfl
      · rw [if_neg h, if_neg h]
  refine ⟨fun rows => ?_, by decide⟩
  have key : ∀ (rs : List (List String)) (i : Nat) (m : OMap),
      enumFold oneLineColonStep i rs m =
        rs.foldl (fun m r =>
          match r with
          | [] => m
          | f :: _ => if charIn f ':' then odWrite m (colonKeyOf f) (colonValOf f) else m) m := by
    intro rs
    induction rs with
    | nil => intro i m; rfl
    | cons r t ih =>
      intro i m
      simp only [enumFold, List.foldl]
      rw [hstep i r m]
      exact ih (i + 1) _
  exact key rows 0 []

/-- C7: no-match and empty-section behavior.  A target whose lookup text
appears in no line contributes nothing to the parse (and hence to the
ResultMapping); a target whose located header line is immediately followed
by a blank line (or the end of input) contributes nothing; a document
matching no target yields the empty ResultMapping.  All pipeline functions
are total, so no exception can arise. -/
theorem C7_no_match_empty_section (lines : List String) (ts1 ts2 : List Target)
    (t : Target) :
    ((∀ l ∈ lines, strContains l t.lookup = false) →
      parse_socwatch_content lines (ts1 ++ t :: ts2) =
        parse_socwatch_content lines (ts1 ++ ts2)) ∧
    (∀ i, locate t.lookup lines = some i →
      ((lines.drop (i + 1)).head?.all (fun l => pyStrip l == "")) = true →
      parse_socwatch_content lines (ts1 ++ t :: ts2) =
        parse_socwatch_content lines (ts1 ++ ts2)) ∧
    ((∀ t' ∈ ts1 ++ t :: ts2, ∀ l ∈ lines, strContains l t'.lookup = false) →
      extract_target_metrics (parse_socwatch_content lines (ts1 ++ t :: ts2)) = []) := by
  refine ⟨?_, ?_, ?_⟩
  · intro h
    rw [parse_append, parse_append,
      parse_cons_of_locate_none lines t ts2 (locate_eq_none _ _ h)]
  · intro i h1 h2
    rw [parse_append, parse_append,
      parse_cons_of_extract_empty lines t ts2 i h1 (extract_empty_of_blank lines i t h2)]
  · intro h
    rw [parse_nil_of_all_miss lines _ h]
    rfl

/-- Witness for C7: a lookup absent from the document, a header followed
directly by a blank line, and a fully unmatched catalog. -/
theorem C7_no_match_empty_section_witness :
    ((∀ l ∈ (["x"] : List String), strContains l ("Z" : String) = false) ∧
      parse_socwatch_content ["x"]
          ([] ++ ({ key := "T", lookup := "Z" } : Target) :: []) =
        parse_socwatch_content ["x"] ([] ++ [])) ∧
    (locate ("H" : String) ["H", ""] = some 0 ∧
      ((["H", ""].drop 1).head?.all (fun l => pyStrip l == "")) = true ∧
      parse_socwatch_content ["H", ""]
          ([] ++ ({ key := "T", lookup := "H" } : Target) :: []) =
        parse_socwatch_content ["H", ""] ([] ++ [])) ∧
    ((∀ t' ∈ ([] ++ ({ key := "T", lookup := "Z" } : Target) :: []),
        ∀ l ∈ (["x"] : List String), strContains l t'.lookup = false) ∧
      extract_target_metrics (parse_socwatch_content ["x"]
        ([] ++ ({ key := "T", lookup := "Z" } : Target) :: [])) = []) :=
  ⟨⟨by decide, (C7_no_match_empty_section ["x"] [] [] _).1 (by decide)⟩,
   ⟨by decide, by decide,
    (C7_no_match_empty_section ["H", ""] [] [] _).2.1 0 (by decide) (by decide)⟩,
   ⟨by decide, (C7_no_match_empty_section ["x"] [] [] _).2.2 (by decide)⟩⟩

/-- C8: extractor totality under malformed input.  All extraction routines
are total functions (the embedding is executable and never partial), rows
shorter than the indices a routine reads are inert — replacing such a row
by any other short row (in particular the empty row) leaves the output
unchanged, and for the index-independent routines a short row can be
removed outright — while the remaining well-formed rows are still
extracted; numeric coercion failure retains the original string.  The
concrete conjuncts show a one-field row inside a two-column table being
skipped with the neighbouring rows still extracted, and a short data row
in a residency table producing a partial result instead of an error. -/
theorem C8_extractor_totality :
    (∀ (rows : List (List String)) (j kIdx vIdx : Nat) (r r' : List String),
      rows.get? j = some r → r.length ≤ max kIdx vIdx → r'.length ≤ max kIdx vIdx →
      default_residency_table (rows.set j r') kIdx vIdx =
        default_residency_table rows kIdx vIdx) ∧
    (∀ (rows : List (List String)) (j kIdx vIdx : Nat) (buckets : List String)
        (r r' : List String),
      rows.get? j = some r → r.length ≤ max kIdx vIdx → r'.length ≤ max kIdx vIdx →
      bucketized_table (rows.set j r') kIdx vIdx buckets =
        bucketized_table rows kIdx vIdx buckets) ∧
    (∀ (rows : List (List String)) (j : Nat) (r r' : List String) (label : String),
      rows.get? j = some r → r.length < 5 → r'.length < 5 →
      temp_avr_table (rows.set j r') label = temp_avr_table rows label) ∧
    (∀ (rows : List (List String)) (j : Nat) (r r' : List String),
      rows.get? j = some r → r.length < 3 → r'.length < 3 →
      os_wakeups_table (rows.set j r') = os_wakeups_table rows) ∧
    (∀ (rows : List (List String)) (j kIdx vIdx : Nat) (r r' : List String),
      rows.get? j = some r → r.length ≤ max kIdx vIdx → r'.length ≤ max kIdx vIdx →
      core_freq_avr_table (rows.set j r') kIdx vIdx = core_freq_avr_table rows kIdx vIdx) ∧
    (∀ (rows : List (List String)) (j : Nat) (r r' : List String) (label : String),
      rows.get? j = some r → r.length < 3 → r'.length < 3 →
      bw_total_avr (rows.set j r') label = bw_total_avr rows label) ∧
    (∀ (rows1 rows2 : List (List String)) (r : List String), r.length = 0 →
      cpu_model_table (rows1 ++ r :: rows2) = cpu_model_table (rows1 ++ rows2)) ∧
    (∀ (rows1 rows2 : List (List String)) (r : List String), r.length = 0 →
      one_line_colon_separator (rows1 ++ r :: rows2) =
        one_line_colon_separator (rows1 ++ rows2)) ∧
    core_residency_table [["State", "C0 (%)"], ["A"]] = [("State", Value.str "A")] ∧
    default_residency_table [["A", "1.5"], ["x"], ["B", "2.5"]] 0 1 =
      [("A", Value.num (mkRat 3 2)), ("B", Value.num (mkRat 5 2))] ∧
    (∀ k v : String, parseFloatOpt v = none →
      default_residency_table [[k, v]] 0 1 = [(k, Value.str v)]) := by
  refine ⟨?_, ?_, ?_, ?_, ?_, ?_, ?_, ?_, by decide, by decide, ?_⟩
  · intro rows j kIdx vIdx r r' hget hr hr'
    exact enumFold_set_inert _ (fun rr => rr.length ≤ max kIdx vIdx)
      (fun i rr d h => defaultResidencyStep_inert kIdx vIdx i rr d h)
      rows j 0 r r' [] hget hr hr'
  · intro rows j kIdx vIdx buckets r r' hget hr hr'
    have h := enumFold_set_inert _ (fun rr => rr.length ≤ max kIdx vIdx)
      (fun i rr st h => bucketizedStep_inert kIdx vIdx i rr st h)
      rows j 0 r r'
      (([] : OMap), buckets.foldl (fun m b => odWrite m b (Value.intV 0)) [])
      hget hr hr'
    simp only [bucketized_table]
    rw [h]
  · intro rows j r r' label hget hr hr'
    exact enumFold_set_inert _ (fun rr => rr.length < 5)
      (fun i rr d h => tempAvrStep_inert label i rr d h) rows j 0 r r' [] hget hr hr'
  · intro rows j r r' hget hr hr'
    exact enumFold_set_inert _ (fun rr => rr.length < 3)
      (fun i rr d h => osWakeupsStep_inert i rr d h) rows j 0 r r' [] hget hr hr'
  · intro rows j kIdx vIdx r r' hget hr hr'
    exact core_freq_set_inert rows j kIdx vIdx r r' hget hr hr'
  · intro rows j r r' label hget hr hr'
    exact bw_total_avr_set_inert rows j r r' label hget hr hr'
  · intro rows1 rows2 r hr
    have : r = [] := List.length_eq_zero.mp hr
    subst this
    unfold cpu_model_table
    rw [enumFold_eq_foldl cpuModelStep (fun i r d => rfl),
      enumFold_eq_foldl cpuModelStep (fun i r d => rfl),
      List.foldl_append, List.foldl_append]
    rfl
  · intro rows1 rows2 r hr
    have : r = [] := List.length_eq_zero.mp hr
    subst this
    unfold one_line_colon_separator
    rw [enumFold_eq_foldl oneLineColonStep (fun i r d => rfl),
      enumFold_eq_foldl oneLineColonStep (fun i r d => rfl),
      List.foldl_append, List.foldl_append]
    rfl
  · intro k v hv
    simp only [default_residency_table, enumFold, defaultResidencyStep]
    rw [if_pos (by simp)]
    simp [pstateKey, hv, odWrite]

/-- Witness for C8: every universally quantified conjunct applied at a
concrete short row inside a well-formed table. -/
theorem C8_extractor_totality_witness :
    (([["A", "1"], ["x"], ["B", "2"]] : List (List String)).get? 1 = some ["x"] ∧
      default_residency_table ([["A", "1"], ["x"], ["B", "2"]].set 1 []) 0 1 =
        default_residency_table [["A", "1"], ["x"], ["B", "2"]] 0 1) ∧
    (bucketized_table ([["A", "1"], ["x"], ["B", "2"]].set 1 []) 0 1 ["0-9"] =
      bucketized_table [["A", "1"], ["x"], ["B", "2"]] 0 1 ["0-9"]) ∧
    (temp_avr_table ([["a", "b", "c", "d", "e"], ["x"]].set 1 []) "CPU_temp" =
      temp_avr_table [["a", "b", "c", "d", "e"], ["x"]] "CPU_temp") ∧
    (os_wakeups_table ([["a", "b", "c"], ["x"]].set 1 []) =
      os_wakeups_table [["a", "b", "c"], ["x"]]) ∧
    (core_freq_avr_table ([["a", "b"], ["x"]].set 1 []) 0 1 =
      core_freq_avr_table [["a", "b"], ["x"]] 0 1) ∧
    (bw_total_avr ([["a", "b", "3.5"], ["x"]].set 1 []) "DDR_BW" =
      bw_total_avr [["a", "b", "3.5"], ["x"]] "DDR_BW") ∧
    (cpu_model_table ([["a=b"]] ++ [] :: [["c=d"]]) = cpu_model_table ([["a=b"]] ++ [["c=d"]])) ∧
    (one_line_colon_separator ([["a: 1"]] ++ [] :: [["b: 2"]]) =
      one_line_colon_separator ([["a: 1"]] ++ [["b: 2"]])) ∧
    (parseFloatOpt "abc" = none ∧
      default_residency_table [["A", "abc"]] 0 1 = [("A", Value.str "abc")]) :=
  ⟨⟨by decide, C8_extractor_totality.1 [["A", "1"], ["x"], ["B", "2"]] 1 0 1 ["x"] []
      (by decide) (by decide) (by decide)⟩,
   C8_extractor_totality.2.1 [["A", "1"], ["x"], ["B", "2"]] 1 0 1 ["0-9"] ["x"] []
      (by decide) (by decide) (by decide),
   C8_extractor_totality.2.2.1 [["a", "b", "c", "d", "e"], ["x"]] 1 ["x"] [] "CPU_temp"
      (by decide) (by decide) (by decide),
   C8_extractor_totality.2.2.2.1 [["a", "b", "c"], ["x"]] 1 ["x"] []
      (by decide) (by decide) (by decide),
   C8_extractor_totality.2.2.2.2.1 [["a", "b"], ["x"]] 1 0 1 ["x"] []
      (by decide) (by decide) (by decide),
   C8_extractor_totality.2.2.2.2.2.1 [["a", "b", "3.5"], ["x"]] 1 ["x"] [] "DDR_BW"
      (by decide) (by decide) (by decide),
   C8_extractor_totality.2.2.2.2.2.2.1 [["a=b"]] [["c=d"]] [] (by decide),
   C8_extractor_totality.2.2.2.2.2.2.2.1 [["a: 1"]] [["b: 2"]] [] (by decide),
   ⟨by decide, C8_extractor_totality.2.2.2.2.2.2.2.2.2.2 "A" "abc" (by decide)⟩⟩

/-- C9 amended: composite-key uniqueness holds for well-formed catalogs and
documents: when the catalog's target keys are pairwise distinct and contain
no space character (so composite keys of different tables cannot collide,
the separator being made of spaces), and no extracted table synthesizes a
header whose text coincides with one of its own data keys, then no
composite key is written twice during aggregation, and consequently the
ResultMapping equals the write sequence with no value overwritten. -/
theorem C9_key_uniqueness_amended (lines : List String) (ts : List Target)
    (hkeys : (ts.map Target.key).Nodup)
    (hsp : ∀ t ∈ ts, noSpace t.key = true)
    (hhdr : ∀ td ∈ parse_socwatch_content lines ts,
      is_specialized_table_format td.2 td.1.key = false →
      get_table_header_text td.1.key ∉ omapKeys td.2) :
    ((resultWrites (parse_socwatch_content lines ts)).map Prod.fst).Nodup ∧
    extract_target_metrics (parse_socwatch_content lines ts) =
      resultWrites (parse_socwatch_content lines ts) := by
  have hW : ((resultWrites (parse_socwatch_content lines ts)).map Prod.fst).Nodup :=
    resultWrites_keys_nodup (parse_socwatch_content lines ts)
      (parse_keys_nodup lines ts hkeys)
      (fun td htd => hsp td.1 (parse_mem_targets lines ts td htd))
      (parse_data_nodup lines ts)
      hhdr
  refine ⟨hW, ?_⟩
  show (parse_socwatch_content lines ts).foldl _ [] = _
  rw [metrics_eq_odFold, odFold_nil_of_nodup _ hW]

/-- Witness for C9 at a small well-formed catalog and document. -/
theorem C9_key_uniqueness_amended_witness :
    ((([{ key := "K", lookup := "L" }] : List Target).map Target.key).Nodup ∧
      (∀ t ∈ ([{ key := "K", lookup := "L" }] : List Target), noSpace t.key = true) ∧
      (∀ td ∈ parse_socwatch_content (pySplit "L\nA,1\n\n" '\n')
          [{ key := "K", lookup := "L" }],
        is_specialized_table_format td.2 td.1.key = false →
        get_table_header_text td.1.key ∉ omapKeys td.2)) ∧
    ((resultWrites (parse_socwatch_content (pySplit "L\nA,1\n\n" '\n')
        [{ key := "K", lookup := "L" }])).map Prod.fst).Nodup ∧
    extract_target_metrics (parse_socwatch_content (pySplit "L\nA,1\n\n" '\n')
        [{ key := "K", lookup := "L" }]) =
      resultWrites (parse_socwatch_content (pySplit "L\nA,1\n\n" '\n')
        [{ key := "K", lookup := "L" }]) :=
  ⟨⟨by decide, by decide, by decide⟩,
   C9_key_uniqueness_amended (pySplit "L\nA,1\n\n" '\n') [{ key := "K", lookup := "L" }]
     (by decide) (by decide) (by decide)⟩

/-- C10: the residency-row extractor depends only on the first two rows;
with at least two rows the output matches the output on rows 0 and 1 alone,
with fewer than two rows it is empty. -/
theorem C10_residency_first_two_rows (td : List (List String)) :
    (2 ≤ td.length → core_residency_table td = core_residency_table (td.take 2)) ∧
    (td.length < 2 → core_residency_table td = []) := by
  cases td with
  | nil => exact ⟨fun h => by simp at h, fun _ => rfl⟩
  | cons a t =>
    cases t with
    | nil => exact ⟨fun h => by simp at h, fun _ => rfl⟩
    | cons b r =>
      refine ⟨fun _ => rfl, fun h => ?_⟩
      exact absurd h (by simp [List.length_cons])

/-- Witness for C10 at a three-row table. -/
theorem C10_residency_first_two_rows_witness :
    2 ≤ ([["State", "C0 (%)"], ["A", "45.2"], ["B", "33.3"]] : List (List String)).length ∧
    core_residency_table [["State", "C0 (%)"], ["A", "45.2"], ["B", "33.3"]] =
      core_residency_table ([["State", "C0 (%)"], ["A", "45.2"], ["B", "33.3"]].take 2) :=
  ⟨by decide, (C10_residency_first_two_rows _).1 (by decide)⟩

/-- C2 amended: output order is catalog-driven for well-formed catalogs.
When the three targets' keys are pairwise distinct and space-free, the
ResultMapping of any parse over the catalog [A, B, C] equals the
concatenation of the per-table blocks in catalog order (all of A's keys
precede all of B's, and all of B's precede all of C's); and when A, B, C
match sections s1, s2, s3 respectively — each lookup being non-empty,
found in its own section and absent from the other two leading sections —
swapping the physical positions of sections s1 and s2 in the document
leaves the parse result, hence the ResultMapping and its key order,
unchanged. -/
theorem C2_catalog_order_amended (s1 s2 s3 : List String) (A B C : Target)
    (i1 i2 i3 : Nat)
    (hkeys : ([A, B, C].map Target.key).Nodup)
    (hsp : ∀ t ∈ [A, B, C], noSpace t.key = true)
    (hA : locate A.lookup s1 = some i1)
    (hB : locate B.lookup s2 = some i2)
    (hC : locate C.lookup s3 = some i3)
    (hAne : A.lookup ≠ "") (hBne : B.lookup ≠ "") (hCne : C.lookup ≠ "")
    (hA2 : ∀ l ∈ s2, strContains l A.lookup = false)
    (hB1 : ∀ l ∈ s1, strContains l B.lookup = false)
    (hC1 : ∀ l ∈ s1, strContains l C.lookup = false)
    (hC2 : ∀ l ∈ s2, strContains l C.lookup = false) :
    extract_target_metrics (parse_socwatch_content
        ((s1 ++ [""]) ++ ((s2 ++ [""]) ++ (s3 ++ [""]))) [A, B, C]) =
      specBlocks (parse_socwatch_content
        ((s1 ++ [""]) ++ ((s2 ++ [""]) ++ (s3 ++ [""]))) [A, B, C]) ∧
    extract_target_metrics (parse_socwatch_content
        ((s2 ++ [""]) ++ ((s1 ++ [""]) ++ (s3 ++ [""]))) [A, B, C]) =
      specBlocks (parse_socwatch_content
        ((s2 ++ [""]) ++ ((s1 ++ [""]) ++ (s3 ++ [""]))) [A, B, C]) ∧
    parse_socwatch_content ((s1 ++ [""]) ++ ((s2 ++ [""]) ++ (s3 ++ [""]))) [A, B, C] =
      parse_socwatch_content ((s2 ++ [""]) ++ ((s1 ++ [""]) ++ (s3 ++ [""]))) [A, B, C] := by
  have hblank : ∀ (lk : String), lk ≠ "" → ∀ (u : List String),
      (∀ l ∈ u, strContains l lk = false) →
      ∀ l ∈ u ++ [""], strContains l lk = false := by
    intro lk hne u hu l hl
    rcases List.mem_append.mp hl with h | h
    · exact hu l h
    · have hl0 : l = "" := by simpa using h
      rw [hl0]
      exact strContains_empty_false lk hne
  have happ : ∀ (lk : String) (u v : List String),
      (∀ l ∈ u, strContains l lk = false) → (∀ l ∈ v, strContains l lk = false) →
      ∀ l ∈ u ++ v, strContains l lk = false :=
    fun lk u v hu hv l hl => (List.mem_append.mp hl).elim (hu l) (hv l)
  refine ⟨metrics_eq_specBlocks _ _ hkeys hsp, metrics_eq_specBlocks _ _ hkeys hsp, ?_⟩
  obtain ⟨hlA1, heA1⟩ := parse_one_eq [] s1 ((s2 ++ [""]) ++ (s3 ++ [""])) A i1
    (fun l hl => absurd hl (List.not_mem_nil l)) hA
  obtain ⟨hlA2, heA2⟩ := parse_one_eq (s2 ++ [""]) s1 (s3 ++ [""]) A i1
    (hblank A.lookup hAne s2 hA2) hA
  obtain ⟨hlB1, heB1⟩ := parse_one_eq (s1 ++ [""]) s2 (s3 ++ [""]) B i2
    (hblank B.lookup hBne s1 hB1) hB
  obtain ⟨hlB2, heB2⟩ := parse_one_eq [] s2 ((s1 ++ [""]) ++ (s3 ++ [""])) B i2
    (fun l hl => absurd hl (List.not_mem_nil l)) hB
  obtain ⟨hlC1, heC1⟩ := parse_one_eq ((s1 ++ [""]) ++ (s2 ++ [""])) s3 [] C i3
    (happ C.lookup _ _ (hblank C.lookup hCne s1 hC1) (hblank C.lookup hCne s2 hC2)) hC
  obtain ⟨hlC2, heC2⟩ := parse_one_eq ((s2 ++ [""]) ++ (s1 ++ [""])) s3 [] C i3
    (happ C.lookup _ _ (hblank C.lookup hCne s2 hC2) (hblank C.lookup hCne s1 hC1)) hC
  have hdoc1C : ((s1 ++ [""]) ++ (s2 ++ [""])) ++ ((s3 ++ [""]) ++ []) =
      (s1 ++ [""]) ++ ((s2 ++ [""]) ++ (s3 ++ [""])) := by
    rw [List.append_nil, List.append_assoc]
  have hdoc2C : ((s2 ++ [""]) ++ (s1 ++ [""])) ++ ((s3 ++ [""]) ++ []) =
      (s2 ++ [""]) ++ ((s1 ++ [""]) ++ (s3 ++ [""])) := by
    rw [List.append_nil, List.append_assoc]
  rw [hdoc1C] at hlC1 heC1
  rw [hdoc2C] at hlC2 heC2
  rw [List.nil_append] at hlA1 heA1 hlB2 heB2
  rw [parse_single_step _ A [B, C] _ _ hlA1 heA1,
    parse_single_step _ B [C] _ _ hlB1 heB1,
    parse_single_step _ C [] _ _ hlC1 heC1,
    parse_single_step _ A [B, C] _ _ hlA2 heA2,
    parse_single_step _ B [C] _ _ hlB2 heB2,
    parse_single_step _ C [] _ _ hlC2 heC2,
    parse_nil, parse_nil]

/-- Witness for C2 at a concrete three-section document and catalog. -/
theorem C2_catalog_order_amended_witness :
    ((([{ key := "KA", lookup := "LA" }, { key := "KB", lookup := "LB" },
        { key := "KC", lookup := "LC" }] : List Target).map Target.key).Nodup ∧
      locate "LA" ["LA", "a,1"] = some 0 ∧
      locate "LB" ["LB", "b,2"] = some 0 ∧
      locate "LC" ["LC", "c,3"] = some 0 ∧
      (∀ l ∈ ["LB", "b,2"], strContains l "LA" = false) ∧
      (∀ l ∈ ["LA", "a,1"], strContains l "LB" = false) ∧
      (∀ l ∈ ["LA", "a,1"], strContains l "LC" = false) ∧
      (∀ l ∈ ["LB", "b,2"], strContains l "LC" = false)) ∧
    parse_socwatch_content
        ((["LA", "a,1"] ++ [""]) ++ ((["LB", "b,2"] ++ [""]) ++ (["LC", "c,3"] ++ [""])))
        [{ key := "KA", lookup := "LA" }, { key := "KB", lookup := "LB" },
         { key := "KC", lookup := "LC" }] =
      parse_socwatch_content
        ((["LB", "b,2"] ++ [""]) ++ ((["LA", "a,1"] ++ [""]) ++ (["LC", "c,3"] ++ [""])))
        [{ key := "KA", lookup := "LA" }, { key := "KB", lookup := "LB" },
         { key := "KC", lookup := "LC" }] :=
  ⟨⟨by decide, by decide, by decide, by decide, by decide, by decide, by decide, by decide⟩,
   (C2_catalog_order_amended ["LA", "a,1"] ["LB", "b,2"] ["LC", "c,3"]
      { key := "KA", lookup := "LA" } { key := "KB", lookup := "LB" }
      { key := "KC", lookup := "LC" } 0 0 0
      (by decide) (by decide) (by decide) (by decide) (by decide)
      (by decide) (by decide) (by decide) (by decide) (by decide)
      (by decide) (by decide)).2.2⟩

end Socwatch
